import Mathlib

/-!
Verification of the process-topology and parallel-grid logic of
`veGiantModel/engine/topology.py`.

The Python module manages a row-major mapping between n-dimensional named-axis
coordinates and linear process ranks (`ProcessTopology`) and derives the
communication groups used for pipeline/data/model parallel training
(`PipelineParallelGrid`).  This file is a shallow embedding of that module:

* a coordinate is a `List Nat` in declared axis order (the Python code uses a
  `namedtuple`; equality and hashing there are by the tuple of values);
* the enumeration `itertools.product(*[range(d) for d in dims])` becomes
  `cartesianProduct dims`;
* `self.mapping` (an insertion-ordered dict from coordinate to rank) becomes an
  association list `mappingFrom 0 (cartesianProduct dims)`;
* fallible Python operations (raising `ValueError`, `AttributeError`,
  `IndexError`, failing an `assert`, …) return `Option`/an explicit error code.
-/

namespace VeGiant

/-- `itertools.product(range d₀, range d₁, …)` in the exact order Python
enumerates it: axis 0 outermost (slowest varying), last axis innermost. -/
def cartesianProduct : List Nat → List (List Nat)
  | [] => [[]]
  | d :: ds => (List.range d).flatMap fun i => (cartesianProduct ds).map (i :: ·)

/-- Index of the first occurrence of `a` in a list (`list.index` / dict lookup
position), `none` when absent. -/
def idxOf? {α : Type} [DecidableEq α] (a : α) : List α → Option Nat
  | [] => none
  | x :: xs => if x = a then some 0 else (idxOf? a xs).map (· + 1)

/-- The association list `[(coord, k), (coord', k+1), …]`: the tail of the
insertion-ordered dict `self.mapping` starting at rank `k`. -/
def mappingFrom (k : Nat) : List (List Nat) → List (List Nat × Nat)
  | [] => []
  | c :: cs => (c, k) :: mappingFrom (k + 1) cs

/-- Dict lookup `m[key]` on the association list, `none` on `KeyError`. -/
def lookupRank (key : List Nat) : List (List Nat × Nat) → Option Nat
  | [] => none
  | (c, r) :: m => if c = key then some r else lookupRank key m

/-- `ProcessTopology.__init__(axes, dims)`: the stored axis names and sizes.
The mapping itself is recomputed from `dims` by the definitions below, exactly
as `__init__` enumerates `cartesian_product(*ranges)`. -/
structure ProcessTopology where
  axes : List String
  dims : List Nat

namespace ProcessTopology

/-- The keys of `self.mapping` in insertion order (rank `i` ↦ `coords[i]`). -/
def coords (t : ProcessTopology) : List (List Nat) :=
  cartesianProduct t.dims

/-- `self.mapping`: coordinate ↦ linear rank, in insertion order. -/
def mapping (t : ProcessTopology) : List (List Nat × Nat) :=
  mappingFrom 0 t.coords

/-- `world_size(self) = len(self.mapping)`. -/
def world_size (t : ProcessTopology) : Nat :=
  t.mapping.length

/-- `get_rank`: a full coordinate (one value per axis, given in axis order as
the `namedtuple` holds it) to its linear rank.  The arity check mirrors
`len(coord_kwargs) != len(self.axes)` (a `ValueError` in the source); a
coordinate absent from the mapping fails the source's `assert` (returns
`none` here). -/
def get_rank (t : ProcessTopology) (coord : List Nat) : Option Nat :=
  if coord.length ≠ t.axes.length then none
  else lookupRank coord t.mapping

/-- `get_coord(rank)`: scan `self.mapping.items()` in insertion order and
return the first coordinate whose stored index equals `rank`
(`ValueError` — `none` — when the rank is not found). -/
def get_coord (t : ProcessTopology) (rank : Nat) : Option (List Nat) :=
  (t.mapping.find? fun p => p.2 == rank).map (·.1)

/-- `get_axis_names()`. -/
def get_axis_names (t : ProcessTopology) : List String :=
  t.axes

/-- `get_dim(axis)`: `0` when the axis is not declared, otherwise
`dims[axes.index(axis)]`. -/
def get_dim (t : ProcessTopology) (axis : String) : Nat :=
  match idxOf? axis t.axes with
  | none => 0
  | some i => t.dims.getD i 0

end ProcessTopology

/-- Row-major linearization: the rank the spec promises for a valid
coordinate (axis 0 slowest-varying, last axis fastest).  This is the
spec-side formula that the enumeration order of the source is compared
against. -/
def rowMajorRank : List Nat → List Nat → Nat
  | _ :: ds, x :: xs => x * ds.prod + rowMajorRank ds xs
  | _, _ => 0

/-- A coordinate is valid for `dims` when it has one component per axis and
each component is below the axis size. -/
def ValidCoord (dims coord : List Nat) : Prop :=
  List.Forall₂ (· < ·) coord dims

/-- `(idxOf? a l).getD 0`: `list.index(a)` where the caller has already
ensured `a ∈ l`. -/
def idxOfNat {α : Type} [DecidableEq α] (a : α) (l : List α) : Nat :=
  (idxOf? a l).getD 0

/-- Python's `sorted` / `list.sort()` on ranks (ascending). -/
def sortNat (l : List Nat) : List Nat :=
  List.insertionSort (· ≤ ·) l

/-- `getattr(coord, a)` for a `ProcessCoord`: the component at the axis's
position, `none` (`AttributeError`) when `a` is not a declared axis. -/
def coordAttr (axes : List String) (coord : List Nat) (a : String) : Option Nat :=
  (idxOf? a axes).map fun j => coord.getD j 0

/-- `namedtuple._replace`: set the named components, `none` (`ValueError`)
when a name is not a declared axis. -/
def replaceAxes (axes : List String) (coord : List Nat) :
    List (String × Nat) → Option (List Nat)
  | [] => some coord
  | (a, v) :: rest =>
    match idxOf? a axes with
    | none => none
    | some j => replaceAxes axes (coord.set j v) rest

/-- The key `ProcessCoord(**other_keys, **{axis: axis_key})` built in
`get_axis_comm_lists`: the namedtuple places each named value at its declared
axis position. -/
def buildKey (axes other_axes : List String) (coord : List Nat) (axis : String)
    (axis_key : Nat) : List Nat :=
  axes.map fun a => if a = axis then axis_key else coord.getD (idxOfNat a other_axes) 0

/-- Insert `k` at position `j` (the shape `buildKey` takes on a
duplicate-free axis list). -/
def insertAt : Nat → Nat → List Nat → List Nat
  | 0, k, c => k :: c
  | _ + 1, k, [] => [k]
  | j + 1, k, x :: c => x :: insertAt j k c

namespace ProcessTopology

/-- `get_axis_comm_lists(axis)`: one rank list per combination of the other
axes' values, each list running over `range(get_dim(axis))`.  Returns `[]`
when `axis` is not declared.  The inner `self.mapping[key]` access cannot
raise on the keys this method builds (see `lookupRank_buildKey`); the
`getD 0` default models the infallible dict access. -/
def get_axis_comm_lists (t : ProcessTopology) (axis : String) : List (List Nat) :=
  if axis ∉ t.axes then []
  else
    let other_axes := t.axes.filter fun a => a ≠ axis
    let ranges_dims := other_axes.map t.get_dim
    (cartesianProduct ranges_dims).map fun coord =>
      (List.range (t.get_dim axis)).map fun axis_key =>
        (lookupRank (buildKey t.axes other_axes coord axis axis_key) t.mapping).getD 0

/-- `_filter_helper` applied to one coordinate: checks the constraints in
order, short-circuiting on the first mismatch; `none` models the
`AttributeError` raised by `getattr` on an undeclared axis name. -/
def filterHelper (axes : List String) : List (String × Nat) → List Nat → Option Bool
  | [], _ => some true
  | (key, val) :: rest, x =>
    match idxOf? key axes with
    | none => none
    | some j => if x.getD j 0 ≠ val then some false else filterHelper axes rest x

/-- The list comprehension in `filter_match`, walking `self.mapping` in
insertion order. -/
def filterMatchAux (axes : List String) (fs : List (String × Nat)) :
    List (List Nat × Nat) → Option (List Nat)
  | [] => some []
  | (c, r) :: m =>
    match filterHelper axes fs c with
    | none => none
    | some true => (filterMatchAux axes fs m).map (r :: ·)
    | some false => filterMatchAux axes fs m

/-- `filter_match(**filter_kwargs)`. -/
def filter_match (t : ProcessTopology) (fs : List (String × Nat)) :
    Option (List Nat) :=
  filterMatchAux t.axes fs t.mapping

/-- `get_axis_list(axis, idx)`; `none` models the `ValueError` of
`self.axes.index(axis)` on an undeclared axis. -/
def get_axis_list (t : ProcessTopology) (axis : String) (idx : Nat) :
    Option (List Nat) :=
  match idxOf? axis t.axes with
  | none => none
  | some axis_num =>
    some (t.mapping.filterMap fun k =>
      if k.1.getD axis_num 0 = idx then some k.2 else none)

end ProcessTopology

/-- `stage_to_global(stage_id, **kwargs)`: take the caller's coordinate,
`_replace` the pipe component (and any overrides), resolve via `get_rank`. -/
def stage_to_global (t : ProcessTopology) (global_rank stage_id : Nat)
    (overrides : List (String × Nat)) : Option Nat :=
  match t.get_coord global_rank with
  | none => none
  | some me =>
    match replaceAxes t.axes me (("pipe", stage_id) :: overrides) with
    | none => none
    | some transform => t.get_rank transform

/-! ### `_prime_factors` and the automatic (pipe, data) topology -/

/-- The `for candidate in range(2, N+1)` search for the first divisor. -/
def findDivisor (N : Nat) : List Nat → Option Nat
  | [] => none
  | c :: cs => if N % c = 0 then some c else findDivisor N cs

/-- The `while N != 1` loop of `_prime_factors`, with explicit fuel (each
iteration divides `N` by at least 2, so `N` itself is always enough fuel). -/
def primeFactorsAux : Nat → Nat → List Nat
  | 0, _ => []
  | fuel + 1, N =>
    if N = 1 then []
    else
      match findDivisor N (List.range' 2 (N - 1)) with
      | none => []
      | some c => c :: primeFactorsAux fuel (N / c)

/-- `_prime_factors(N)`; `none` models the `ValueError` raised for `N ≤ 0`. -/
def _prime_factors (N : Nat) : Option (List Nat) :=
  if N = 0 then none else some (primeFactorsAux N N)

/-- The `for idx, prime in enumerate(...)` loop assigning even-indexed primes
to `num_pp` and odd-indexed primes to `num_dp`. -/
def splitPrimes : List Nat → Nat → Nat × Nat → Nat × Nat
  | [], _, acc => acc
  | p :: rest, idx, acc =>
    if idx % 2 = 0 then splitPrimes rest (idx + 1) (acc.1 * p, acc.2)
    else splitPrimes rest (idx + 1) (acc.1, acc.2 * p)

/-- The `(num_pp, num_dp)` the grid computes when no topology is supplied. -/
def autoSizes (ws : Nat) : Option (Nat × Nat) :=
  (_prime_factors ws).map fun fs => splitPrimes fs 0 (1, 1)

/-- `PipeDataParallelTopology(num_pp, num_dp)`: axes `[pipe, data]`. -/
def PipeDataParallelTopology (num_pp num_dp : Nat) : ProcessTopology :=
  ProcessTopology.mk ["pipe", "data"] [num_pp, num_dp]

/-- `PipeModelDataParallelTopology(num_dp, num_pp, num_mp)`:
axes `[pipe, data, model]`. -/
def PipeModelDataParallelTopology (num_dp num_pp num_mp : Nat) : ProcessTopology :=
  ProcessTopology.mk ["pipe", "data", "model"] [num_pp, num_dp, num_mp]

/-- The topology the grid derives when none is supplied. -/
def autoTopology (ws : Nat) : Option ProcessTopology :=
  (autoSizes ws).map fun pd => PipeDataParallelTopology pd.1 pd.2

/-- Spec-side description: multiply the even-indexed elements into the first
component and the odd-indexed elements into the second. -/
def prodAlternating : List Nat → Nat × Nat
  | [] => (1, 1)
  | p :: rest =>
    let q := prodAlternating rest
    (p * q.2, q.1)

/-! ### `PipelineParallelGrid` construction -/

/-- The Python exceptions that can abort grid construction. -/
inductive PyError
  | invalidGrid
  | valueError
  | attributeError
  | indexError
  | assertionError
  deriving DecidableEq

/-- Fold that stops at the first error but keeps the state reached so far
(the `dist.new_group` calls already made are not undone by a later raise). -/
def foldE {σ α : Type} (f : σ → α → σ × Option PyError) :
    σ → List α → σ × Option PyError
  | s, [] => (s, none)
  | s, a :: l =>
    match f s a with
    | (s', none) => foldE f s' l
    | (s', some e) => (s', some e)

/-- `for g in lists: ... if self.global_rank in g: <keep g>`. -/
def keepLoop (rank : Nat) (kept : Option (List Nat)) :
    List (List Nat) → Option (List Nat)
  | [] => kept
  | g :: rest => keepLoop rank (if rank ∈ g then some g else kept) rest

/-- State of the DeepSpeed-model-group loop: the kept group, the kept
`ds_model_rank` (`-1` until set), and the `dist.new_group` calls made. -/
structure DsState where
  group : List Nat
  dsrank : Int
  trace : List (List Nat)

/-- The `for dp in range(self.data_parallel_size)` loop building the
DeepSpeed model groups. -/
def dsModelLoop (t : ProcessTopology) (rank : Nat) (s : DsState) :
    List Nat → DsState × Option PyError
  | [] => (s, none)
  | dp :: rest =>
    match t.get_axis_list "data" dp with
    | none => (s, some .valueError)
    | some ranks0 =>
      let ranks := sortNat ranks0
      let s1 : DsState := { s with trace := s.trace ++ [ranks] }
      let s2 := if rank ∈ ranks then
          { s1 with group := ranks, dsrank := (idxOfNat rank ranks : Int) }
        else s1
      dsModelLoop t rank s2 rest

/-- Trace/error projection of `dsModelLoop` (independent of the rank). -/
def dsTraceAux (t : ProcessTopology) : List Nat → List (List Nat) × Option PyError
  | [] => ([], none)
  | dp :: rest =>
    match t.get_axis_list "data" dp with
    | none => ([], some .valueError)
    | some ranks0 =>
      match dsTraceAux t rest with
      | (tr, e) => (sortNat ranks0 :: tr, e)

/-- The inner `for l in comm_lists` search of `_build_p2p_groups` for one
rank, with the per-list `assert len(l) == self.pipe_parallel_size`. -/
def p2pFind (p rank : Nat) : List (List Nat) → Option (List Nat) × Option PyError
  | [] => (none, none)
  | l :: rest =>
    if l.length ≠ p then (none, some .assertionError)
    else if rank ∈ l then
      (some [rank, l.getD ((idxOfNat rank l + 1) % p) 0], none)
    else p2pFind p rank rest

/-- The outer `for rank in range(self.world_size)` loop of
`_build_p2p_groups`. -/
def p2pAux (p : Nat) (comm : List (List Nat)) :
    List Nat → List (List Nat) × Option PyError
  | [] => ([], none)
  | r :: rest =>
    match p2pFind p r comm with
    | (_, some e) => ([], some e)
    | (some entry, none) =>
      match p2pAux p comm rest with
      | (ls, e) => (entry :: ls, e)
    | (none, none) => p2pAux p comm rest

/-- `_build_p2p_groups`, including the final
`assert len(p2p_lists) == self.world_size`. -/
def _build_p2p_groups (t : ProcessTopology) (p ws : Nat) :
    List (List Nat) × Option PyError :=
  match p2pAux p (t.get_axis_comm_lists "pipe") (List.range ws) with
  | (ls, some e) => (ls, some e)
  | (ls, none) => if ls.length ≠ ws then (ls, some .assertionError) else (ls, none)

/-- Send/receive state accumulated by `_build_grads_groups` and
`_build_activation_groups` (both initialize src ranks to `-1` and groups to
`[]`), plus the `dist.new_group` calls made (`trace`). -/
structure PairState where
  send_src : Int := -1
  recv_src : Int := -1
  send_group : List Nat := []
  recv_group : List Nat := []
  proc_groups : List (List Nat) := []
  trace : List (List Nat) := []

/-- The nested `for dp_id in range(data_parallel_size): for stage in
range(pipe_parallel_size)` iteration space, in loop order. -/
def pairsList (dsize psize : Nat) : List (Nat × Nat) :=
  (List.range dsize).flatMap fun dp => (List.range psize).map (Prod.mk dp)

/-- One `(dp_id, stage)` iteration of `_build_grads_groups`.  The receive
condition `stage == self.stage_id + 1` is as in the source; a group is built
only when `prev_stage > -1`, i.e. `stage > 0`. -/
def gradsStep (t : ProcessTopology) (stage_id data_parallel_id : Nat)
    (s : PairState) (q : Nat × Nat) : PairState × Option PyError :=
  let dp_id := q.1
  let stage := q.2
  if 0 < stage then
    match t.filter_match [("data", dp_id), ("pipe", stage), ("model", 0)] with
    | none => (s, some .attributeError)
    | some [] => (s, some .indexError)
    | some (grads_src_rank :: _) =>
      match t.filter_match [("data", dp_id), ("pipe", stage - 1)] with
      | none => (s, some .attributeError)
      | some prev_mp_group =>
        let grads_group := sortNat (grads_src_rank :: prev_mp_group)
        let s1 : PairState := { s with proc_groups := s.proc_groups ++ [grads_group],
                                       trace := s.trace ++ [grads_group] }
        if stage = stage_id ∧ dp_id = data_parallel_id then
          ({ s1 with send_src := grads_src_rank, send_group := grads_group }, none)
        else if stage = stage_id + 1 ∧ dp_id = data_parallel_id then
          ({ s1 with recv_src := grads_src_rank, recv_group := grads_group }, none)
        else (s1, none)
  else (s, none)

/-- One `(dp_id, stage)` iteration of `_build_activation_groups`.  The
receive condition `stage == self.stage_id - 1` is Python integer arithmetic,
i.e. `stage + 1 = stage_id`; a group is built only when
`next_stage < pipe_parallel_size`. -/
def actStep (t : ProcessTopology) (psize stage_id data_parallel_id : Nat)
    (s : PairState) (q : Nat × Nat) : PairState × Option PyError :=
  let dp_id := q.1
  let stage := q.2
  if stage + 1 < psize then
    match t.filter_match [("data", dp_id), ("pipe", stage), ("model", 0)] with
    | none => (s, some .attributeError)
    | some [] => (s, some .indexError)
    | some (activation_src_rank :: _) =>
      match t.filter_match [("data", dp_id), ("pipe", stage + 1)] with
      | none => (s, some .attributeError)
      | some next_mp_group =>
        let activation_group := sortNat (activation_src_rank :: next_mp_group)
        let s1 : PairState := { s with proc_groups := s.proc_groups ++ [activation_group],
                                       trace := s.trace ++ [activation_group] }
        if stage = stage_id ∧ dp_id = data_parallel_id then
          ({ s1 with send_src := activation_src_rank,
                     send_group := activation_group }, none)
        else if stage + 1 = stage_id ∧ dp_id = data_parallel_id then
          ({ s1 with recv_src := activation_src_rank,
                     recv_group := activation_group }, none)
        else (s1, none)
  else (s, none)

/-- `_build_grads_groups` for a process at `(stage_id, data_parallel_id)`. -/
def _build_grads_groups (t : ProcessTopology)
    (dsize psize stage_id data_parallel_id : Nat) : PairState × Option PyError :=
  foldE (gradsStep t stage_id data_parallel_id) {} (pairsList dsize psize)

/-- `_build_activation_groups` for a process at
`(stage_id, data_parallel_id)`. -/
def _build_activation_groups (t : ProcessTopology)
    (dsize psize stage_id data_parallel_id : Nat) : PairState × Option PyError :=
  foldE (actStep t psize stage_id data_parallel_id) {} (pairsList dsize psize)

/-- Trace/error projection of the grads loop (independent of the caller's
stage and data-parallel ids). -/
def gradsTraceAux (t : ProcessTopology) :
    List (Nat × Nat) → List (List Nat) × Option PyError
  | [] => ([], none)
  | q :: rest =>
    if 0 < q.2 then
      match t.filter_match [("data", q.1), ("pipe", q.2), ("model", 0)] with
      | none => ([], some .attributeError)
      | some [] => ([], some .indexError)
      | some (src :: _) =>
        match t.filter_match [("data", q.1), ("pipe", q.2 - 1)] with
        | none => ([], some .attributeError)
        | some prev =>
          match gradsTraceAux t rest with
          | (tr, e) => (sortNat (src :: prev) :: tr, e)
    else gradsTraceAux t rest

/-- Trace/error projection of the activation loop. -/
def actTraceAux (t : ProcessTopology) (psize : Nat) :
    List (Nat × Nat) → List (List Nat) × Option PyError
  | [] => ([], none)
  | q :: rest =>
    if q.2 + 1 < psize then
      match t.filter_match [("data", q.1), ("pipe", q.2), ("model", 0)] with
      | none => ([], some .attributeError)
      | some [] => ([], some .indexError)
      | some (src :: _) =>
        match t.filter_match [("data", q.1), ("pipe", q.2 + 1)] with
        | none => ([], some .attributeError)
        | some next =>
          match actTraceAux t psize rest with
          | (tr, e) => (sortNat (src :: next) :: tr, e)
    else actTraceAux t psize rest

/-- `_is_grid_valid`: the product of `get_dim` over the declared axes must
equal the backend world size. -/
def _is_grid_valid (t : ProcessTopology) (ws : Nat) : Bool :=
  (t.axes.foldl (fun acc ax => acc * t.get_dim ax) 1) == ws

/-- The model/tensor-slicing phase: singleton groups per rank when
`model_parallel_size == 1`, otherwise the model-axis communicator lists.
Returns (kept group, `dist.new_group` calls). -/
def slicePhase (t : ProcessTopology) (rank ws msize : Nat) :
    Option (List Nat) × List (List Nat) :=
  if msize = 1 then
    let singles := (List.range ws).map fun r => [r]
    (keepLoop rank none singles, singles)
  else
    let mg := t.get_axis_comm_lists "model"
    (keepLoop rank none mg, mg)

/-- Everything `PipelineParallelGrid.__init__` computes and keeps, plus the
ordered list of member-rank lists passed to `dist.new_group` (`trace`). -/
structure GridResult where
  data_parallel_size : Nat := 1
  pipe_parallel_size : Nat := 1
  model_parallel_size : Nat := 1
  stage_id : Nat := 0
  data_parallel_id : Nat := 0
  model_parallel_id : Nat := 0
  slice_parallel_src_id : Nat := 0
  ds_model_group : List Nat := []
  ds_model_rank : Int := -1
  dp_group : List Nat := []
  p2p_groups : List (List Nat) := []
  grads : PairState := {}
  acts : PairState := {}
  pp_group : List Nat := []
  slice_group : List Nat := []
  trace : List (List Nat) := []

/-- `PipelineParallelGrid.__init__` with an explicitly supplied topology.
Follows the source's statement order; note the grads/activation group
builders are each invoked twice, exactly as in the source. -/
def buildGrid (t : ProcessTopology) (global_rank world_size : Nat) :
    GridResult × Option PyError :=
  let dsize := max (t.get_dim "data") 1
  let psize := max (t.get_dim "pipe") 1
  let msize := max (t.get_dim "model") 1
  let base : GridResult := { data_parallel_size := dsize,
                             pipe_parallel_size := psize,
                             model_parallel_size := msize }
  if _is_grid_valid t world_size = false then (base, some .invalidGrid)
  else
    match t.get_coord global_rank with
    | none => (base, some .valueError)
    | some me =>
    match coordAttr t.axes me "pipe" with
    | none => (base, some .attributeError)
    | some stage_id =>
    match coordAttr t.axes me "data" with
    | none => (base, some .attributeError)
    | some dpid =>
    match (if "model" ∈ t.axes then coordAttr t.axes me "model" else some 0) with
    | none => (base, some .attributeError)
    | some model_id =>
    match (if "model" ∈ t.axes then
        stage_to_global t global_rank stage_id [("data", dpid), ("model", 0)]
      else some 0) with
    | none => (base, some .valueError)
    | some slice_src =>
    let base := { base with stage_id := stage_id, data_parallel_id := dpid,
                            model_parallel_id := model_id,
                            slice_parallel_src_id := slice_src }
    match dsModelLoop t global_rank ⟨[], -1, []⟩ (List.range dsize) with
    | (ds, some e) => ({ base with trace := ds.trace }, some e)
    | (ds, none) =>
    if ds.dsrank ≤ -1 then ({ base with trace := ds.trace }, some .assertionError)
    else
    let base := { base with ds_model_group := ds.group, ds_model_rank := ds.dsrank,
                            trace := ds.trace }
    let dp_groups := t.get_axis_comm_lists "data"
    let base := { base with dp_group := (keepLoop global_rank none dp_groups).getD [],
                            trace := base.trace ++ dp_groups }
    match _build_p2p_groups t psize world_size with
    | (_, some e) => (base, some e)
    | (p2p, none) =>
    let base := { base with p2p_groups := p2p }
    match _build_grads_groups t dsize psize stage_id dpid with
    | (g1, some e) => ({ base with trace := base.trace ++ g1.trace }, some e)
    | (g1, none) =>
    let base := { base with grads := g1, trace := base.trace ++ g1.trace }
    match _build_activation_groups t dsize psize stage_id dpid with
    | (a1, some e) => ({ base with trace := base.trace ++ a1.trace }, some e)
    | (a1, none) =>
    let base := { base with acts := a1, trace := base.trace ++ a1.trace }
    match _build_grads_groups t dsize psize stage_id dpid with
    | (g2, some e) => ({ base with trace := base.trace ++ g2.trace }, some e)
    | (g2, none) =>
    let base := { base with grads := g2, trace := base.trace ++ g2.trace }
    match _build_activation_groups t dsize psize stage_id dpid with
    | (a2, some e) => ({ base with trace := base.trace ++ a2.trace }, some e)
    | (a2, none) =>
    let base := { base with acts := a2, trace := base.trace ++ a2.trace }
    let pipe_groups := t.get_axis_comm_lists "pipe"
    let base := { base with trace := base.trace ++ pipe_groups }
    match keepLoop global_rank none pipe_groups with
    | none => (base, some .assertionError)
    | some ppg =>
    let base := { base with pp_group := ppg }
    let sl := slicePhase t global_rank world_size msize
    ({ base with slice_group := sl.1.getD [], trace := base.trace ++ sl.2 }, none)

/-- `PipelineParallelGrid.__init__` with `topology=None`: derive the
2-axis (pipe, data) topology from the prime factorization of the world
size, then build. -/
def buildGridAuto (global_rank ws : Nat) : GridResult × Option PyError :=
  match autoTopology ws with
  | none => ({}, some .valueError)
  | some t => buildGrid t global_rank ws

/-- The topology `axes=[pipe, data, model]` with dims `[p, d, m]` (the axis
order of `PipeModelDataParallelTopology`). -/
def stdTopo (p d m : Nat) : ProcessTopology :=
  ProcessTopology.mk ["pipe", "data", "model"] [p, d, m]

/-- Spec-side description of the forward-activation group keyed at
`(dp, stage)`: the ascending-sorted union of the rank at
`(data=dp, pipe=stage, model=0)` and all ranks at `(data=dp, pipe=stage+1)`.
Enumerating `range` in order and filtering yields exactly that sorted
union. -/
def specActGroup (p d m dp stage : Nat) : List Nat :=
  (List.range (p * d * m)).filter fun r =>
    ((stdTopo p d m).get_coord r).elim false fun c =>
      decide (c.getD 1 0 = dp) &&
        (decide (c.getD 0 0 = stage + 1) ||
          (decide (c.getD 0 0 = stage) && decide (c.getD 2 0 = 0)))

/-- Spec-side description of the backward-gradient group keyed at
`(dp, stage)` (`stage ≥ 1`): the ascending-sorted union of the rank at
`(data=dp, pipe=stage, model=0)` and all ranks at `(data=dp, pipe=stage-1)`. -/
def specGradsGroup (p d m dp stage : Nat) : List Nat :=
  (List.range (p * d * m)).filter fun r =>
    ((stdTopo p d m).get_coord r).elim false fun c =>
      decide (c.getD 1 0 = dp) &&
        (decide (c.getD 0 0 = stage - 1) ||
          (decide (c.getD 0 0 = stage) && decide (c.getD 2 0 = 0)))

/-- The ranks of the mapping entries whose coordinate satisfies `P`, in
mapping (= rank) order: the common shape of `filter_match` (without
constraint errors) and `get_axis_list`. -/
def rankFilter (P : List Nat → Bool) (m : List (List Nat × Nat)) : List Nat :=
  m.filterMap fun p => if P p.1 then some p.2 else none

/-- Last-write-wins accumulator: the value a sequence of assignments leaves
in a field that started as `d`. -/
def lastD {β : Type} (d : β) : List β → β
  | [] => d
  | x :: xs => lastD x xs

/-- The rank at `(pipe=stage, data=dp, model=0)` on the standard
`[pipe, data, model]` topology: the source rank used for activation and
gradient groups. -/
def srcRank (p d m : Nat) (q : Nat × Nat) : Nat :=
  rowMajorRank [p, d, m] [q.2, q.1, 0]

/-- The result of `filter_match(data=dp, pipe=st)` on the standard topology:
all ranks with the given data and pipe coordinates, in ascending order. -/
def pdRanks (p d m dp st : Nat) : List Nat :=
  rankFilter
    (fun c => ProcessTopology.filterHelper ["pipe", "data", "model"]
      [("data", dp), ("pipe", st)] c == some true)
    (stdTopo p d m).mapping

/-- The activation group the source builds for the pair `q = (dp, stage)`. -/
def actGroupOf (p d m : Nat) (q : Nat × Nat) : List Nat :=
  sortNat (srcRank p d m q :: pdRanks p d m q.1 (q.2 + 1))

/-- The gradient group the source builds for the pair `q = (dp, stage)`. -/
def gradsGroupOf (p d m : Nat) (q : Nat × Nat) : List Nat :=
  sortNat (srcRank p d m q :: pdRanks p d m q.1 (q.2 - 1))

/-- The sequence of member-rank lists a grid construction passes to
`dist.new_group`, computed without reference to the constructing process's
global rank: the DeepSpeed model groups, the data-parallel communicator
lists, the gradient and activation groups (each pass issued twice, as in the
source), the pipe communicator lists and the model-slicing groups, cut short
at the stage where construction raises.  `buildGrid_trace_eq` shows every
in-range rank produces exactly this trace. -/
def gridTrace (t : ProcessTopology) (ws : Nat) : List (List Nat) :=
  let dsize := max (t.get_dim "data") 1
  let psize := max (t.get_dim "pipe") 1
  let msize := max (t.get_dim "model") 1
  if _is_grid_valid t ws = false then []
  else match idxOf? "pipe" t.axes with
  | none => []
  | some _ =>
  match idxOf? "data" t.axes with
  | none => []
  | some _ =>
  match dsTraceAux t (List.range dsize) with
  | (tr0, some _) => tr0
  | (tr0, none) =>
  let dp_groups := t.get_axis_comm_lists "data"
  match _build_p2p_groups t psize ws with
  | (_, some _) => tr0 ++ dp_groups
  | (_, none) =>
  match gradsTraceAux t (pairsList dsize psize) with
  | (gtr, some _) => tr0 ++ dp_groups ++ gtr
  | (gtr, none) =>
  match actTraceAux t psize (pairsList dsize psize) with
  | (atr, some _) => tr0 ++ dp_groups ++ gtr ++ atr
  | (atr, none) =>
  tr0 ++ dp_groups ++ gtr ++ atr ++ gtr ++ atr ++
    t.get_axis_comm_lists "pipe" ++
    (if msize = 1 then (List.range ws).map (fun q => [q])
     else t.get_axis_comm_lists "model")

/-! ### Basic facts about `idxOf?` -/

theorem idxOf?_eq_none {α : Type} [DecidableEq α] {a : α} {l : List α} :
    idxOf? a l = none ↔ a ∉ l := by
  induction l with
  | nil => simp [idxOf?]
  | cons x xs ih =>
    by_cases hx : x = a
    · subst hx; simp [idxOf?]
    · rw [idxOf?, if_neg hx]
      cases h : idxOf? a xs with
      | none =>
        have hna : a ∉ xs := ih.mp h
        have hax : ¬a = x := fun hh => hx hh.symm
        simp [List.mem_cons, hna, hax]
      | some j =>
        have hma : a ∈ xs := by
          by_contra hc
          rw [ih.mpr hc] at h
          cases h
        simp [List.mem_cons, hma]

theorem idxOf?_get? {α : Type} [DecidableEq α] {a : α} {l : List α} {i : Nat}
    (h : idxOf? a l = some i) : l.get? i = some a := by
  induction l generalizing i with
  | nil => simp [idxOf?] at h
  | cons x xs ih =>
    rw [idxOf?] at h
    by_cases hx : x = a
    · rw [if_pos hx] at h
      cases h
      simpa using hx
    · rw [if_neg hx] at h
      cases hj : idxOf? a xs with
      | none => rw [hj] at h; cases h
      | some j =>
        rw [hj] at h
        simp only [Option.map] at h
        cases h
        simpa using ih hj

theorem idxOf?_lt_length {α : Type} [DecidableEq α] {a : α} {l : List α} {i : Nat}
    (h : idxOf? a l = some i) : i < l.length :=
  List.get?_eq_some.mp (idxOf?_get? h) |>.choose

theorem idxOf?_of_get? {α : Type} [DecidableEq α] {a : α} {l : List α} {i : Nat}
    (hnd : l.Nodup) (h : l.get? i = some a) : idxOf? a l = some i := by
  induction l generalizing i with
  | nil => simp at h
  | cons x xs ih =>
    cases i with
    | zero =>
      simp only [List.get?] at h
      cases h
      simp [idxOf?]
    | succ j =>
      simp only [List.get?] at h
      have hmem : a ∈ xs := List.get?_mem h
      have hx : x ≠ a := by
        rintro rfl
        exact (List.nodup_cons.mp hnd).1 hmem
      rw [idxOf?, if_neg hx, ih (List.nodup_cons.mp hnd).2 h]
      rfl

theorem idxOf?_append_left {α : Type} [DecidableEq α] {a : α} {l₁ l₂ : List α}
    (h : a ∈ l₁) : idxOf? a (l₁ ++ l₂) = idxOf? a l₁ := by
  induction l₁ with
  | nil => simp at h
  | cons x xs ih =>
    by_cases hx : x = a
    · simp [idxOf?, hx]
    · have hmem : a ∈ xs := by
        rcases List.mem_cons.mp h with rfl | h2
        · exact absurd rfl hx
        · exact h2
      simp [idxOf?, hx, ih hmem]

theorem idxOf?_append_right {α : Type} [DecidableEq α] {a : α} {l₁ l₂ : List α}
    (h : a ∉ l₁) : idxOf? a (l₁ ++ l₂) = (idxOf? a l₂).map (· + l₁.length) := by
  induction l₁ with
  | nil =>
    cases hj : idxOf? a l₂ with
    | none => simp [hj]
    | some j => simp [hj]
  | cons x xs ih =>
    have hx : x ≠ a := fun hh => h (hh ▸ List.mem_cons_self x xs)
    have hxs : a ∉ xs := fun hh => h (List.mem_cons_of_mem _ hh)
    rw [List.cons_append, idxOf?, if_neg hx, ih hxs]
    cases hj : idxOf? a l₂ with
    | none => rfl
    | some j => exact congrArg some (by simp; omega)

theorem idxOf?_range' {a s n : Nat} (h1 : s ≤ a) (h2 : a < s + n) :
    idxOf? a (List.range' s n) = some (a - s) := by
  induction n generalizing s with
  | zero => omega
  | succ m ih =>
    by_cases hs : s = a
    · simp [List.range', idxOf?, hs]
    · have h1' : s + 1 ≤ a := by omega
      have harith : (a - (s + 1)) + 1 = a - s := by omega
      rw [List.range', idxOf?, if_neg hs, ih h1' (by omega)]
      exact congrArg some harith

theorem idxOf?_range {a n : Nat} (h : a < n) :
    idxOf? a (List.range n) = some a := by
  rw [List.range_eq_range']
  simpa using idxOf?_range' (Nat.zero_le a) (by omega)

theorem idxOf?_map_cons {x : Nat} {xs : List Nat} {P : List (List Nat)} :
    idxOf? (x :: xs) (P.map (x :: ·)) = idxOf? xs P := by
  induction P with
  | nil => rfl
  | cons p ps ih =>
    by_cases hp : p = xs
    · simp [idxOf?, hp]
    · have hc : ¬(x :: p = x :: xs) := by simp [hp]
      simp [idxOf?, hp, hc, ih]

theorem not_mem_map_cons {y x : Nat} {xs : List Nat} {P : List (List Nat)}
    (h : y ≠ x) : y :: xs ∉ P.map (x :: ·) := by
  simp only [List.mem_map, not_exists, not_and]
  intro p _ hc
  exact h (by injection hc with h1 _; exact h1.symm)

/-! ### `cartesianProduct`: length, membership, nodup, row-major indexing -/

theorem length_cartesianProduct (ds : List Nat) :
    (cartesianProduct ds).length = ds.prod := by
  induction ds with
  | nil => rfl
  | cons d ds ih =>
    rw [cartesianProduct, List.length_flatMap]
    have hfun : (List.length ∘ fun i => (cartesianProduct ds).map (i :: ·)) =
        fun _ : Nat => ds.prod := funext fun i => by simp [ih]
    rw [hfun, List.map_const', List.sum_replicate, smul_eq_mul,
      List.length_range, List.prod_cons]

theorem mem_cartesianProduct {c ds : List Nat} :
    c ∈ cartesianProduct ds ↔ ValidCoord ds c := by
  induction ds generalizing c with
  | nil =>
    simp only [cartesianProduct, List.mem_singleton, ValidCoord]
    constructor
    · rintro rfl; exact List.Forall₂.nil
    · intro h; cases h; rfl
  | cons d ds ih =>
    simp only [cartesianProduct, List.mem_flatMap, List.mem_map, List.mem_range,
      ValidCoord]
    constructor
    · rintro ⟨i, hi, p, hp, rfl⟩
      exact List.Forall₂.cons hi (ih.mp hp)
    · intro h
      cases h with
      | cons hx hxs => exact ⟨_, hx, _, ih.mpr hxs, rfl⟩

theorem nodup_cartesianProduct (ds : List Nat) :
    (cartesianProduct ds).Nodup := by
  induction ds with
  | nil => simp [cartesianProduct]
  | cons d ds ih =>
    rw [cartesianProduct, List.nodup_flatMap]
    refine ⟨fun i _ => List.Nodup.map (fun a b h => by injection h) ih, ?_⟩
    have hr : List.Pairwise (fun i j : Nat => i ≠ j) (List.range d) :=
      (List.pairwise_lt_range d).imp fun h => Nat.ne_of_lt h
    refine hr.imp ?_
    intro i j hij
    intro c hc hc2
    obtain ⟨p, _, rfl⟩ := List.mem_map.mp hc
    obtain ⟨q, _, hq⟩ := List.mem_map.mp hc2
    have h1 : j = i := by injection hq
    exact hij h1.symm

theorem idxOf?_mem {α : Type} [DecidableEq α] {a : α} {l : List α} {i : Nat}
    (h : idxOf? a l = some i) : a ∈ l :=
  List.get?_mem (idxOf?_get? h)

theorem idxOf?_flatMap_cons {x k j : Nat} {xs : List Nat} {I : List Nat}
    {P : List (List Nat)}
    (hx : idxOf? x I = some k) (hxs : idxOf? xs P = some j) :
    idxOf? (x :: xs) (I.flatMap fun i => P.map (i :: ·)) =
      some (k * P.length + j) := by
  induction I generalizing k with
  | nil => simp [idxOf?] at hx
  | cons i0 I' ih =>
    rw [List.flatMap_cons]
    by_cases hi : i0 = x
    · subst hi
      rw [idxOf?, if_pos rfl] at hx
      cases hx
      have hmem : i0 :: xs ∈ P.map (i0 :: ·) :=
        List.mem_map.mpr ⟨xs, idxOf?_mem hxs, rfl⟩
      rw [idxOf?_append_left hmem, idxOf?_map_cons, hxs]
      simp
    · rw [idxOf?, if_neg hi] at hx
      cases hk : idxOf? x I' with
      | none => rw [hk] at hx; cases hx
      | some k' =>
        rw [hk] at hx
        simp only [Option.map] at hx
        cases hx
        have hnm : x :: xs ∉ P.map (i0 :: ·) :=
          not_mem_map_cons fun hh => hi hh.symm
        rw [idxOf?_append_right hnm, ih hk]
        exact congrArg some (by simp [List.length_map]; ring)

theorem idxOf?_cartesianProduct {ds c : List Nat} (h : ValidCoord ds c) :
    idxOf? c (cartesianProduct ds) = some (rowMajorRank ds c) := by
  induction h with
  | nil => decide
  | @cons x d cs ds' hx _ ih =>
    rw [cartesianProduct, idxOf?_flatMap_cons (idxOf?_range hx) ih,
      length_cartesianProduct]
    rfl

/-! ### The mapping: lookup and reverse search -/

theorem length_mappingFrom (k : Nat) (L : List (List Nat)) :
    (mappingFrom k L).length = L.length := by
  induction L generalizing k with
  | nil => rfl
  | cons c L' ih => simp [mappingFrom, ih]

theorem lookupRank_mappingFrom {c : List Nat} {L : List (List Nat)} (k : Nat) :
    lookupRank c (mappingFrom k L) = (idxOf? c L).map (· + k) := by
  induction L generalizing k with
  | nil => rfl
  | cons c0 L' ih =>
    rw [mappingFrom, lookupRank, idxOf?]
    by_cases h : c0 = c
    · simp [h]
    · rw [if_neg h, if_neg h, ih (k + 1)]
      cases idxOf? c L' with
      | none => rfl
      | some j => exact congrArg some (by show j + (k + 1) = j + 1 + k; omega)

theorem find?_mappingFrom {r k : Nat} {L : List (List Nat)} (h : k ≤ r) :
    ((mappingFrom k L).find? fun p => p.2 == r) =
      (L.get? (r - k)).map (fun c => (c, r)) := by
  induction L generalizing k with
  | nil => rfl
  | cons c0 L' ih =>
    by_cases hk : k = r
    · subst hk
      simp [mappingFrom, List.find?]
    · have hlt : k + 1 ≤ r := by omega
      have hsub : r - k = (r - (k + 1)) + 1 := by omega
      rw [mappingFrom, List.find?]
      have hne : ((k : Nat) == r) = false := by simp [hk]
      rw [hne, ih hlt, hsub]
      rfl

namespace ProcessTopology

theorem coords_def (t : ProcessTopology) : t.coords = cartesianProduct t.dims := rfl

theorem world_size_eq (t : ProcessTopology) : t.world_size = t.dims.prod := by
  rw [world_size, mapping, length_mappingFrom, coords_def, length_cartesianProduct]

theorem get_coord_eq (t : ProcessTopology) (r : Nat) :
    t.get_coord r = t.coords.get? r := by
  rw [get_coord, mapping, find?_mappingFrom (Nat.zero_le r), Nat.sub_zero]
  cases t.coords.get? r <;> rfl

theorem get_rank_eq (t : ProcessTopology) {c : List Nat}
    (hlen : c.length = t.axes.length) : t.get_rank c = idxOf? c t.coords := by
  rw [get_rank, if_neg (by omega), mapping, lookupRank_mappingFrom]
  cases idxOf? c t.coords with
  | none => rfl
  | some j => exact congrArg some (by show j + 0 = j; omega)

/-- On a well-formed topology, `get_rank` of a valid coordinate is exactly its
row-major linearization. -/
theorem get_rank_valid (t : ProcessTopology)
    (hax : t.axes.length = t.dims.length) {c : List Nat}
    (hv : ValidCoord t.dims c) :
    t.get_rank c = some (rowMajorRank t.dims c) := by
  have hlen : c.length = t.axes.length := by
    rw [hax]; exact List.Forall₂.length_eq hv
  rw [get_rank_eq t hlen, coords_def, idxOf?_cartesianProduct hv]

theorem get_rank_isSome_iff (t : ProcessTopology)
    (hax : t.axes.length = t.dims.length) (c : List Nat) :
    (∃ r, t.get_rank c = some r) ↔
      c.length = t.axes.length ∧ ValidCoord t.dims c := by
  constructor
  · rintro ⟨r, hr⟩
    by_cases hlen : c.length = t.axes.length
    · refine ⟨hlen, ?_⟩
      rw [get_rank_eq t hlen] at hr
      exact mem_cartesianProduct.mp (idxOf?_mem hr)
    · rw [get_rank, if_pos hlen] at hr
      cases hr
  · rintro ⟨hlen, hv⟩
    exact ⟨_, get_rank_valid t hax hv⟩

theorem get_coord_lt (t : ProcessTopology) {r : Nat} (h : r < t.world_size) :
    ∃ c, t.get_coord r = some c ∧ ValidCoord t.dims c ∧
      idxOf? c t.coords = some r := by
  have hlen : r < t.coords.length := by
    rw [world_size, mapping, length_mappingFrom] at h
    exact h
  cases hc : t.coords.get? r with
  | none =>
    rw [List.get?_eq_none] at hc
    omega
  | some c =>
    refine ⟨c, by rw [get_coord_eq, hc], ?_, ?_⟩
    · exact mem_cartesianProduct.mp (List.get?_mem hc)
    · exact idxOf?_of_get? (nodup_cartesianProduct t.dims) hc

theorem get_coord_none (t : ProcessTopology) {r : Nat}
    (h : t.world_size ≤ r) : t.get_coord r = none := by
  rw [get_coord_eq, List.get?_eq_none]
  rw [world_size, mapping, length_mappingFrom] at h
  exact h

/-- The rank of any valid coordinate is below the world size. -/
theorem rowMajorRank_lt (t : ProcessTopology) {c : List Nat}
    (hv : ValidCoord t.dims c) : rowMajorRank t.dims c < t.world_size := by
  have := idxOf?_lt_length (idxOf?_cartesianProduct hv)
  rw [world_size, mapping, length_mappingFrom]
  exact this

end ProcessTopology

example : (ProcessTopology.mk ["x", "y"] [2, 3]).get_rank [1, 2] = some 5 := rfl

/-! ## Claim C1: the coordinate/rank mapping is the row-major bijection -/

/-- C1: for every topology built from distinct axis names and positive dims,
the coordinate-to-rank mapping is the row-major bijection (axis 0 slowest,
last axis fastest) onto `[0, ∏ dims)`: `get_rank` of a valid coordinate is
its row-major index, `get_rank ∘ get_coord = id` on ranks, `get_coord ∘
get_rank = id` on valid coordinates, and in particular
`get_rank (x=1, y=2) = 5` on `axes=[x,y], dims=[2,3]`. -/
theorem c1_topology_row_major_bijection (t : ProcessTopology)
    (hnd : t.axes.Nodup) (hax : t.axes.length = t.dims.length)
    (hpos : ∀ d ∈ t.dims, 0 < d) :
    t.world_size = t.dims.prod ∧
    (∀ r, r < t.world_size →
      ∃ c, t.get_coord r = some c ∧ t.get_rank c = some r) ∧
    (∀ c, ValidCoord t.dims c →
      t.get_rank c = some (rowMajorRank t.dims c) ∧
      rowMajorRank t.dims c < t.world_size ∧
      t.get_coord (rowMajorRank t.dims c) = some c) ∧
    (ProcessTopology.mk ["x", "y"] [2, 3]).get_rank [1, 2] = some 5 := by
  refine ⟨t.world_size_eq, ?_, ?_, rfl⟩
  · intro r hr
    obtain ⟨c, hc, hv, hidx⟩ := t.get_coord_lt hr
    refine ⟨c, hc, ?_⟩
    have hlen : c.length = t.axes.length := by rw [hax]; exact hv.length_eq
    rw [t.get_rank_eq hlen, hidx]
  · intro c hv
    refine ⟨t.get_rank_valid hax hv, t.rowMajorRank_lt hv, ?_⟩
    rw [t.get_coord_eq, ProcessTopology.coords_def]
    exact idxOf?_get? (idxOf?_cartesianProduct hv)

/-- Witness for C1: the hypotheses hold and the conclusion evaluates on the
concrete topology `axes=[x,y], dims=[2,3]`. -/
theorem c1_witness :
    (ProcessTopology.mk ["x", "y"] [2, 3]).get_rank [1, 2] = some 5 ∧
    (ProcessTopology.mk ["x", "y"] [2, 3]).world_size = [2, 3].prod :=
  ⟨(c1_topology_row_major_bijection (ProcessTopology.mk ["x", "y"] [2, 3])
      (by decide) (by decide) (by decide)).2.2.2,
    (c1_topology_row_major_bijection (ProcessTopology.mk ["x", "y"] [2, 3])
      (by decide) (by decide) (by decide)).1⟩

/-! ## Claim C8: failure conditions of `get_rank` and `get_coord` -/

/-- C8: `get_rank` fails exactly on invalid coordinates (wrong dimensionality
or a component out of range) and `get_coord` fails exactly on ranks outside
`[0, world_size)`; both succeed on all valid inputs. -/
theorem c8_lookup_failure_conditions (t : ProcessTopology)
    (hax : t.axes.length = t.dims.length) :
    (∀ c, (∃ r, t.get_rank c = some r) ↔
        (c.length = t.axes.length ∧ ValidCoord t.dims c)) ∧
    (∀ r, (∃ c, t.get_coord r = some c) ↔ r < t.world_size) := by
  refine ⟨fun c => t.get_rank_isSome_iff hax c, fun r => ⟨?_, ?_⟩⟩
  · rintro ⟨c, hc⟩
    by_contra h
    rw [t.get_coord_none (Nat.le_of_not_lt h)] at hc
    cases hc
  · intro hr
    obtain ⟨c, hc, _, _⟩ := t.get_coord_lt hr
    exact ⟨c, hc⟩

/-- Witness for C8 on `axes=[x,y], dims=[2,3]`: a valid coordinate resolves,
a partial coordinate fails, an out-of-range rank fails. -/
theorem c8_witness :
    (∃ r, (ProcessTopology.mk ["x", "y"] [2, 3]).get_rank [1, 2] = some r) ∧
    ¬(∃ r, (ProcessTopology.mk ["x", "y"] [2, 3]).get_rank [1] = some r) ∧
    ¬(∃ c, (ProcessTopology.mk ["x", "y"] [2, 3]).get_coord 6 = some c) := by
  have h := c8_lookup_failure_conditions (ProcessTopology.mk ["x", "y"] [2, 3])
    (by decide)
  refine ⟨(h.1 [1, 2]).mpr ⟨by decide, ?_⟩, ?_, ?_⟩
  · exact List.Forall₂.cons (by omega) (List.Forall₂.cons (by omega) List.Forall₂.nil)
  · intro hex
    exact absurd ((h.1 [1]).mp hex).1 (by decide)
  · intro hex
    exact absurd ((h.2 6).mp hex) (by decide)
example : (ProcessTopology.mk ["x", "y"] [2, 3]).get_coord 4 = some [1, 1] := rfl
example : (ProcessTopology.mk ["x", "y"] [2, 3]).get_coord 6 = none := rfl
example : (ProcessTopology.mk ["x", "y"] [2, 3]).get_dim "y" = 3 := rfl
example : (ProcessTopology.mk ["x", "y"] [2, 3]).get_dim "z" = 0 := rfl


/-! ### `filter_match` and `get_axis_list` -/

theorem mem_iff_idxOf?_isSome {α : Type} [DecidableEq α] {a : α} {l : List α} :
    a ∈ l ↔ ∃ j, idxOf? a l = some j := by
  constructor
  · intro h
    cases hj : idxOf? a l with
    | none => exact absurd h (idxOf?_eq_none.mp hj)
    | some j => exact ⟨j, rfl⟩
  · rintro ⟨j, hj⟩
    exact idxOf?_mem hj

theorem filterHelper_spec {axes : List String} {fs : List (String × Nat)}
    (h : ∀ av ∈ fs, av.1 ∈ axes) (c : List Nat) :
    ∃ b, ProcessTopology.filterHelper axes fs c = some b ∧
      (b = true ↔ ∀ av ∈ fs, coordAttr axes c av.1 = some av.2) := by
  induction fs with
  | nil => exact ⟨true, rfl, by simp⟩
  | cons kv rest ih =>
    obtain ⟨key, val⟩ := kv
    obtain ⟨j, hj⟩ := mem_iff_idxOf?_isSome.mp (h _ (List.mem_cons_self _ _))
    have hj2 : idxOf? key axes = some j := hj
    by_cases hval : c.getD j 0 ≠ val
    · refine ⟨false, ?_, ?_⟩
      · simp only [ProcessTopology.filterHelper, hj2, if_pos hval]
      · constructor
        · intro hb
          exact absurd hb (by simp)
        · intro hall
          have hhead := hall (key, val) (List.mem_cons_self _ _)
          rw [coordAttr, hj2] at hhead
          have hgd : c.getD j 0 = val := by simpa using hhead
          exact absurd hgd hval
    · obtain ⟨b, hb, hbiff⟩ := ih fun av hav => h av (List.mem_cons_of_mem _ hav)
      refine ⟨b, ?_, ?_⟩
      · simp only [ProcessTopology.filterHelper, hj2, if_neg hval, hb]
      · rw [hbiff, List.forall_mem_cons]
        have hhead : coordAttr axes c key = some val := by
          rw [coordAttr, hj2]
          push_neg at hval
          simpa using hval
        simp [hhead]

theorem filterMatchAux_eq {axes : List String} {fs : List (String × Nat)}
    (h : ∀ av ∈ fs, av.1 ∈ axes) (m : List (List Nat × Nat)) :
    ProcessTopology.filterMatchAux axes fs m =
      some (rankFilter (fun c => ProcessTopology.filterHelper axes fs c == some true) m) := by
  induction m with
  | nil => rfl
  | cons p m ih =>
    obtain ⟨c, r⟩ := p
    obtain ⟨b, hb, _⟩ := filterHelper_spec h c
    cases b with
    | true =>
      simp [ProcessTopology.filterMatchAux, hb, ih, rankFilter, List.filterMap_cons]
    | false =>
      simp [ProcessTopology.filterMatchAux, hb, ih, rankFilter, List.filterMap_cons]

theorem rankFilter_cons_pos {P : List Nat → Bool} {c : List Nat} {r : Nat}
    {m : List (List Nat × Nat)} (hp : P c = true) :
    rankFilter P ((c, r) :: m) = r :: rankFilter P m := by
  simp [rankFilter, List.filterMap_cons, hp]

theorem rankFilter_cons_neg {P : List Nat → Bool} {c : List Nat} {r : Nat}
    {m : List (List Nat × Nat)} (hp : ¬P c = true) :
    rankFilter P ((c, r) :: m) = rankFilter P m := by
  simp [rankFilter, List.filterMap_cons, Bool.eq_false_iff.mpr hp]

theorem mem_rankFilter_mappingFrom {P : List Nat → Bool} {k r : Nat}
    {L : List (List Nat)} :
    r ∈ rankFilter P (mappingFrom k L) ↔
      (k ≤ r ∧ ∃ c, L.get? (r - k) = some c ∧ P c = true) := by
  induction L generalizing k with
  | nil => simp [rankFilter, mappingFrom]
  | cons c0 L' ih =>
    rw [mappingFrom]
    by_cases hp : P c0 = true
    · rw [rankFilter_cons_pos hp]
      simp only [List.mem_cons]
      constructor
      · rintro (rfl | hmem)
        · exact ⟨Nat.le_refl r, c0, by simp, hp⟩
        · obtain ⟨hk, c, hc, hPc⟩ := (ih (k := k + 1)).mp hmem
          refine ⟨by omega, c, ?_, hPc⟩
          have hsub : r - k = (r - (k + 1)) + 1 := by omega
          rw [hsub]
          exact hc
      · rintro ⟨hk, c, hc, hPc⟩
        by_cases hrk : r = k
        · subst hrk
          simp only [Nat.sub_self, List.get?] at hc
          cases hc
          exact Or.inl rfl
        · refine Or.inr ((ih (k := k + 1)).mpr ⟨by omega, c, ?_, hPc⟩)
          have hsub : r - k = (r - (k + 1)) + 1 := by omega
          rw [hsub] at hc
          exact hc
    · rw [rankFilter_cons_neg hp]
      rw [ih (k := k + 1)]
      constructor
      · rintro ⟨hk, c, hc, hPc⟩
        refine ⟨by omega, c, ?_, hPc⟩
        have hsub : r - k = (r - (k + 1)) + 1 := by omega
        rw [hsub]
        exact hc
      · rintro ⟨hk, c, hc, hPc⟩
        by_cases hrk : r = k
        · subst hrk
          simp only [Nat.sub_self, List.get?] at hc
          cases hc
          exact absurd hPc hp
        · refine ⟨by omega, c, ?_, hPc⟩
          have hsub : r - k = (r - (k + 1)) + 1 := by omega
          rw [hsub] at hc
          exact hc

theorem sorted_rankFilter_mappingFrom {P : List Nat → Bool} {k : Nat}
    {L : List (List Nat)} :
    List.Sorted (· < ·) (rankFilter P (mappingFrom k L)) := by
  induction L generalizing k with
  | nil => simp [rankFilter, mappingFrom, List.Sorted]
  | cons c0 L' ih =>
    rw [mappingFrom]
    by_cases hp : P c0 = true
    · rw [rankFilter_cons_pos hp, List.sorted_cons]
      refine ⟨?_, ih⟩
      intro b hb
      have := (mem_rankFilter_mappingFrom.mp hb).1
      omega
    · rw [rankFilter_cons_neg hp]
      exact ih

theorem rankFilter_true_mappingFrom (P : List Nat → Bool)
    (hP : ∀ c, P c = true) {k : Nat} {L : List (List Nat)} :
    rankFilter P (mappingFrom k L) = List.range' k L.length := by
  induction L generalizing k with
  | nil => rfl
  | cons c0 L' ih =>
    rw [mappingFrom, rankFilter_cons_pos (hP c0), List.length_cons,
      List.range'_succ]
    exact congrArg _ ih

theorem sortNat_of_sorted {l : List Nat} (h : List.Sorted (· ≤ ·) l) :
    sortNat l = l :=
  List.eq_of_perm_of_sorted (List.perm_insertionSort _ l)
    (List.sorted_insertionSort _ l) h


theorem filterMap_ext {α β : Type} {f g : α → Option β} (h : ∀ a, f a = g a)
    (l : List α) : l.filterMap f = l.filterMap g := by
  have hfg : f = g := funext h
  rw [hfg]

/-! ## Claim C9: `filter_match` and `get_axis_list` -/

/-- C9: over any subset of declared axis constraints, `filter_match` returns
the ascending-sorted list of all ranks whose coordinates satisfy every
constraint; the empty constraint set returns all ranks; and for every
declared axis and every value, `get_axis_list axis i` equals
`sorted (filter_match {axis: i})`. -/
theorem c9_filter_match_get_axis_list (t : ProcessTopology) :
    (∀ fs, (∀ av ∈ fs, av.1 ∈ t.axes) →
      ∃ l, t.filter_match fs = some l ∧ List.Sorted (· < ·) l ∧
        ∀ r, r ∈ l ↔ ∃ c, t.get_coord r = some c ∧
            ∀ av ∈ fs, coordAttr t.axes c av.1 = some av.2) ∧
    t.filter_match [] = some (List.range t.world_size) ∧
    (∀ a ∈ t.axes, ∀ i, ∃ l, t.filter_match [(a, i)] = some l ∧
        t.get_axis_list a i = some (sortNat l)) := by
  have hmain : ∀ fs, (∀ av ∈ fs, av.1 ∈ t.axes) →
      t.filter_match fs = some (rankFilter
        (fun c => ProcessTopology.filterHelper t.axes fs c == some true) t.mapping) :=
    fun fs h => filterMatchAux_eq h t.mapping
  refine ⟨?_, ?_, ?_⟩
  · intro fs h
    refine ⟨_, hmain fs h, ?_, ?_⟩
    · rw [ProcessTopology.mapping]
      exact sorted_rankFilter_mappingFrom
    · intro r
      rw [ProcessTopology.mapping, mem_rankFilter_mappingFrom]
      constructor
      · rintro ⟨-, c, hc, hPc⟩
        refine ⟨c, ?_, ?_⟩
        · rw [t.get_coord_eq]
          simpa using hc
        · obtain ⟨b, hb, hbiff⟩ := filterHelper_spec h c
          rw [hb] at hPc
          exact hbiff.mp (by simpa using hPc)
      · rintro ⟨c, hc, hall⟩
        rw [t.get_coord_eq] at hc
        refine ⟨Nat.zero_le r, c, by simpa using hc, ?_⟩
        obtain ⟨b, hb, hbiff⟩ := filterHelper_spec h c
        rw [hb]
        simp [hbiff.mpr hall]
  · rw [hmain [] (by simp), ProcessTopology.mapping,
      rankFilter_true_mappingFrom
        (fun c => ProcessTopology.filterHelper t.axes [] c == some true)
        (fun c => rfl)]
    rw [ProcessTopology.world_size, ProcessTopology.mapping, length_mappingFrom,
      List.range_eq_range']
  · intro a ha i
    obtain ⟨axis_num, haxis⟩ := mem_iff_idxOf?_isSome.mp ha
    have hP : ∀ c : List Nat,
        (ProcessTopology.filterHelper t.axes [(a, i)] c == some true) =
          decide (c.getD axis_num 0 = i) := by
      intro c
      simp only [ProcessTopology.filterHelper, haxis]
      by_cases hgd : c.getD axis_num 0 = i
      · rw [if_neg (not_not_intro hgd)]
        rw [List.getD_eq_getElem?_getD] at hgd
        simp [hgd]
      · rw [if_pos hgd]
        rw [List.getD_eq_getElem?_getD] at hgd
        simp [hgd]
    refine ⟨_, hmain [(a, i)] (by simpa using ha), ?_⟩
    have hsorted : List.Sorted (· < ·) (rankFilter
        (fun c => ProcessTopology.filterHelper t.axes [(a, i)] c == some true)
        t.mapping) := by
      rw [ProcessTopology.mapping]
      exact sorted_rankFilter_mappingFrom
    rw [sortNat_of_sorted hsorted.le_of_lt]
    rw [ProcessTopology.get_axis_list, haxis]
    refine congrArg some ?_
    refine (filterMap_ext ?_ t.mapping).symm
    intro p
    simp only [hP p.1]
    by_cases hgd : p.1.getD axis_num 0 = i
    · rw [if_pos (by rw [List.getD_eq_getElem?_getD] at hgd; simp [hgd]), if_pos hgd]
    · rw [if_neg (by rw [List.getD_eq_getElem?_getD] at hgd; simp [hgd]), if_neg hgd]

/-- Witness for C9 on `axes=[pipe,data,model], dims=[2,2,2]`: the docstring
example `filter_match(pipe=0, data=1) = [2, 3]` and the `get_axis_list`
agreement at `(pipe, 0)`. -/
theorem c9_witness :
    (∃ l, (stdTopo 2 2 2).filter_match [("pipe", 0), ("data", 1)] = some l ∧
      List.Sorted (· < ·) l ∧ 2 ∈ l) ∧
    (∃ l, (stdTopo 2 2 2).filter_match [("pipe", 0)] = some l ∧
      (stdTopo 2 2 2).get_axis_list "pipe" 0 = some (sortNat l)) := by
  have h := c9_filter_match_get_axis_list (stdTopo 2 2 2)
  constructor
  · obtain ⟨l, hl, hs, hmem⟩ := h.1 [("pipe", 0), ("data", 1)] (by decide)
    refine ⟨l, hl, hs, ?_⟩
    refine (hmem 2).mpr ⟨[0, 1, 0], by decide, by decide⟩
  · exact h.2.2 "pipe" (by decide) 0


/-! ## Claim C6: automatic (pipe, data) topology from prime factors -/

theorem findDivisor_range' {N a k : Nat} (h2a : 2 ≤ a) (ha : a ≤ N.minFac)
    (hin : N.minFac < a + k) :
    findDivisor N (List.range' a k) = some N.minFac := by
  induction k generalizing a with
  | zero => omega
  | succ m ih =>
    rw [List.range'_succ]
    by_cases hd : a = N.minFac
    · have hmod : N % a = 0 := by
        rw [hd]
        exact Nat.mod_eq_zero_of_dvd (Nat.minFac_dvd N)
      rw [findDivisor, if_pos hmod, hd]
    · have hmod : ¬N % a = 0 := by
        intro hmod
        have hdvd : a ∣ N := Nat.dvd_of_mod_eq_zero hmod
        have := Nat.minFac_le_of_dvd h2a hdvd
        omega
      rw [findDivisor, if_neg hmod]
      exact ih (by omega) (by omega) (by omega)

theorem findDivisor_minFac {N : Nat} (h : 2 ≤ N) :
    findDivisor N (List.range' 2 (N - 1)) = some N.minFac := by
  have h2 : 2 ≤ N.minFac := (Nat.minFac_prime (by omega)).two_le
  have hle : N.minFac ≤ N := Nat.minFac_le (by omega)
  exact findDivisor_range' (Nat.le_refl 2) h2 (by omega)

theorem primeFactorsAux_eq {fuel N : Nat} (h1 : 1 ≤ N) (hf : N ≤ fuel) :
    primeFactorsAux fuel N = N.primeFactorsList := by
  induction fuel generalizing N with
  | zero => omega
  | succ m ih =>
    by_cases hN1 : N = 1
    · subst hN1
      simp [primeFactorsAux]
    · have h2 : 2 ≤ N := by omega
      obtain ⟨k, rfl⟩ : ∃ k, N = k + 2 := ⟨N - 2, by omega⟩
      rw [primeFactorsAux, if_neg hN1, findDivisor_minFac h2]
      show (k + 2).minFac :: primeFactorsAux m ((k + 2) / (k + 2).minFac) =
        (k + 2).primeFactorsList
      have hmf2 : 2 ≤ (k + 2).minFac := (Nat.minFac_prime (by omega)).two_le
      have hdiv : (k + 2) / (k + 2).minFac < k + 2 :=
        Nat.div_lt_self (by omega) (by omega)
      have h1d : 1 ≤ (k + 2) / (k + 2).minFac :=
        Nat.div_pos (Nat.minFac_le (by omega)) (Nat.minFac_pos _)
      rw [ih h1d (by omega)]
      rw [Nat.primeFactorsList]

theorem splitPrimes_mul (l : List Nat) (idx : Nat) (acc : Nat × Nat) :
    (splitPrimes l idx acc).1 * (splitPrimes l idx acc).2 =
      acc.1 * acc.2 * l.prod := by
  induction l generalizing idx acc with
  | nil => simp [splitPrimes]
  | cons p rest ih =>
    rw [splitPrimes]
    by_cases h : idx % 2 = 0
    · rw [if_pos h, ih]
      simp only [List.prod_cons]
      ring
    · rw [if_neg h, ih]
      simp only [List.prod_cons]
      ring

theorem splitPrimes_eq (l : List Nat) :
    ∀ idx acc, splitPrimes l idx acc =
      (if idx % 2 = 0
        then (acc.1 * (prodAlternating l).1, acc.2 * (prodAlternating l).2)
        else (acc.1 * (prodAlternating l).2, acc.2 * (prodAlternating l).1)) := by
  induction l with
  | nil =>
    intro idx acc
    by_cases h : idx % 2 = 0
    · simp [splitPrimes, prodAlternating, h]
    · simp [splitPrimes, prodAlternating, h]
  | cons p rest ih =>
    intro idx acc
    rw [splitPrimes, prodAlternating]
    by_cases h : idx % 2 = 0
    · rw [if_pos h, ih (idx + 1), if_neg (by omega), if_pos h]
      simp only [Prod.mk.injEq]
      constructor
      · ring
      · ring
    · rw [if_neg h, ih (idx + 1), if_pos (by omega), if_neg h]
      simp only [Prod.mk.injEq]
      constructor
      · ring
      · ring

/-- C6: with no supplied topology, the grid derives a 2-axis (pipe, data)
topology from the ascending prime factorization of the world size,
multiplying even-indexed primes into the pipe dimension and odd-indexed
primes into the data dimension, so that `pipe * data = world_size`; a prime
world size such as 17 yields `pipe = 17, data = 1`. -/
theorem c6_auto_topology_prime_split (ws : Nat) (h : 1 ≤ ws) :
    ∃ pp dp,
      _prime_factors ws = some ws.primeFactorsList ∧
      autoSizes ws = some (pp, dp) ∧
      pp = (prodAlternating ws.primeFactorsList).1 ∧
      dp = (prodAlternating ws.primeFactorsList).2 ∧
      pp * dp = ws ∧
      autoTopology ws = some (PipeDataParallelTopology pp dp) ∧
      autoSizes 17 = some (17, 1) := by
  have hne : ws ≠ 0 := by omega
  have heq : primeFactorsAux ws ws = ws.primeFactorsList :=
    primeFactorsAux_eq h (Nat.le_refl ws)
  have hfs : _prime_factors ws = some ws.primeFactorsList := by
    rw [_prime_factors, if_neg hne, heq]
  have hsp : splitPrimes ws.primeFactorsList 0 (1, 1) =
      ((prodAlternating ws.primeFactorsList).1,
        (prodAlternating ws.primeFactorsList).2) := by
    rw [splitPrimes_eq, if_pos (show 0 % 2 = 0 from rfl)]
    exact Prod.ext (one_mul _) (one_mul _)
  refine ⟨(prodAlternating ws.primeFactorsList).1,
    (prodAlternating ws.primeFactorsList).2, hfs, ?_, rfl, rfl, ?_, ?_, by decide⟩
  · rw [autoSizes, hfs]
    exact congrArg some hsp
  · have hmul := splitPrimes_mul ws.primeFactorsList 0 (1, 1)
    rw [hsp] at hmul
    simp only [one_mul] at hmul
    rw [hmul]
    exact Nat.prod_primeFactorsList hne
  · rw [autoTopology, autoSizes, hfs]
    exact congrArg some
      (congrArg (fun pd : Nat × Nat => PipeDataParallelTopology pd.1 pd.2) hsp)

/-- Witness for C6 at `world_size = 12` (primes `[2, 2, 3]`): the split is
`pipe = 2 * 3 = 6`, `data = 2`, and `6 * 2 = 12`; the degenerate prime case
17 gives `(17, 1)`. -/
theorem c6_witness :
    ∃ pp dp, autoSizes 12 = some (pp, dp) ∧ pp * dp = 12 ∧
      autoSizes 17 = some (17, 1) := by
  obtain ⟨pp, dp, -, hsz, -, -, hmul, -, h17⟩ :=
    c6_auto_topology_prime_split 12 (by decide)
  exact ⟨pp, dp, hsz, hmul, h17⟩


/-! ## Claim C7: `stage_to_global` -/

theorem replaceAxes_some {axes : List String} {updates : List (String × Nat)}
    (h : ∀ av ∈ updates, av.1 ∈ axes) (me : List Nat) :
    ∃ c, replaceAxes axes me updates = some c ∧ c.length = me.length := by
  induction updates generalizing me with
  | nil => exact ⟨me, rfl, rfl⟩
  | cons av rest ih =>
    obtain ⟨j, hj⟩ := mem_iff_idxOf?_isSome.mp (h av (List.mem_cons_self _ _))
    obtain ⟨c, hc, hlen⟩ := ih (fun x hx => h x (List.mem_cons_of_mem _ hx))
      (me.set j av.2)
    refine ⟨c, ?_, by rw [hlen, List.length_set]⟩
    rw [replaceAxes]
    cases av with
    | mk a v =>
      simp only at hj
      rw [hj]
      exact hc

/-- C7: `stage_to_global(stage_id, **overrides)` replaces the caller's pipe
component with `stage_id` and each named override axis with its value, then
resolves the transformed coordinate via `get_rank`: it returns exactly the
rank owning that coordinate when the coordinate is valid, and fails
(`NotFoundError`) when it is not (e.g. a stage id out of range). -/
theorem c7_stage_to_global (t : ProcessTopology) (hnd : t.axes.Nodup)
    (hax : t.axes.length = t.dims.length) (hpipe : "pipe" ∈ t.axes)
    (g : Nat) (hg : g < t.world_size) (stage_id : Nat)
    (overrides : List (String × Nat)) (hov : ∀ av ∈ overrides, av.1 ∈ t.axes) :
    ∃ me c, t.get_coord g = some me ∧
      replaceAxes t.axes me (("pipe", stage_id) :: overrides) = some c ∧
      (ValidCoord t.dims c →
        ∃ r, stage_to_global t g stage_id overrides = some r ∧
          t.get_coord r = some c ∧ t.get_rank c = some r) ∧
      (¬ValidCoord t.dims c → stage_to_global t g stage_id overrides = none) := by
  obtain ⟨me, hme, hmev, -⟩ := t.get_coord_lt hg
  have hdecl : ∀ av ∈ ("pipe", stage_id) :: overrides, av.1 ∈ t.axes := by
    intro av hav
    rcases List.mem_cons.mp hav with rfl | hav2
    · exact hpipe
    · exact hov av hav2
  obtain ⟨c, hc, hclen⟩ := replaceAxes_some hdecl me
  have hsg : stage_to_global t g stage_id overrides = t.get_rank c := by
    rw [stage_to_global, hme]
    show (match replaceAxes t.axes me (("pipe", stage_id) :: overrides) with
      | none => none
      | some transform => t.get_rank transform) = t.get_rank c
    rw [hc]
  have hcax : c.length = t.axes.length := by
    rw [hclen, hax]
    exact List.Forall₂.length_eq hmev
  refine ⟨me, c, hme, hc, ?_, ?_⟩
  · intro hv
    refine ⟨rowMajorRank t.dims c, ?_, ?_, t.get_rank_valid hax hv⟩
    · rw [hsg]
      exact t.get_rank_valid hax hv
    · rw [t.get_coord_eq, ProcessTopology.coords_def]
      exact idxOf?_get? (idxOf?_cartesianProduct hv)
  · intro hv
    rw [hsg, t.get_rank_eq hcax, ProcessTopology.coords_def]
    rw [idxOf?_eq_none]
    intro hmem
    exact hv (mem_cartesianProduct.mp hmem)

/-- Witness for C7 on a 3-stage pipeline `dims=[3,1,1]`, caller rank 0:
requesting stage 2 returns the rank whose coordinate is `[2, 0, 0]`;
requesting stage 5 (out of range) fails. -/
theorem c7_witness :
    (∃ r, stage_to_global (stdTopo 3 1 1) 0 2 [] = some r ∧
      (stdTopo 3 1 1).get_coord r = some [2, 0, 0]) ∧
    stage_to_global (stdTopo 3 1 1) 0 5 [] = none := by
  constructor
  · obtain ⟨me, c, hme, hrep, hval, -⟩ := c7_stage_to_global (stdTopo 3 1 1)
      (by decide) (by decide) (by decide) 0 (by decide) 2 [] (by simp)
    have hme0 : (stdTopo 3 1 1).get_coord 0 = some [0, 0, 0] := rfl
    have hmeeq : me = [0, 0, 0] := by
      have := hme0.symm.trans hme
      injection this with h
      exact h.symm
    subst hmeeq
    have hceq : c = [2, 0, 0] := by
      have hrep0 : replaceAxes (stdTopo 3 1 1).axes [0, 0, 0]
          (("pipe", 2) :: []) = some [2, 0, 0] := rfl
      have := hrep0.symm.trans hrep
      injection this with h
      exact h.symm
    subst hceq
    obtain ⟨r, hr, hrc, -⟩ := hval
      (List.Forall₂.cons (by omega)
        (List.Forall₂.cons (by omega) (List.Forall₂.cons (by omega) List.Forall₂.nil)))
    exact ⟨r, hr, hrc⟩
  · obtain ⟨me, c, hme, hrep, -, hinv⟩ := c7_stage_to_global (stdTopo 3 1 1)
      (by decide) (by decide) (by decide) 0 (by decide) 5 [] (by simp)
    have hme0 : (stdTopo 3 1 1).get_coord 0 = some [0, 0, 0] := rfl
    have hmeeq : me = [0, 0, 0] := by
      have := hme0.symm.trans hme
      injection this with h
      exact h.symm
    subst hmeeq
    have hceq : c = [5, 0, 0] := by
      have hrep0 : replaceAxes (stdTopo 3 1 1).axes [0, 0, 0]
          (("pipe", 5) :: []) = some [5, 0, 0] := rfl
      have := hrep0.symm.trans hrep
      injection this with h
      exact h.symm
    subst hceq
    refine hinv ?_
    intro hv
    cases hv with
    | cons h1 _ => omega


/-! ## Claim C5: grid validation -/

theorem map_congr_mem {α β : Type} {f g : α → β} :
    ∀ {l : List α}, (∀ a ∈ l, f a = g a) → l.map f = l.map g
  | [], _ => rfl
  | x :: xs, h => by
    rw [List.map_cons, List.map_cons, h x (List.mem_cons_self _ _),
      map_congr_mem fun a ha => h a (List.mem_cons_of_mem _ ha)]

theorem foldl_mul_eq {α : Type} (f : α → Nat) :
    ∀ (l : List α) (acc : Nat),
      l.foldl (fun a x => a * f x) acc = acc * (l.map f).prod
  | [], acc => by simp
  | x :: xs, acc => by
    rw [List.foldl_cons, foldl_mul_eq f xs (acc * f x), List.map_cons,
      List.prod_cons, Nat.mul_assoc]

theorem map_get_dim : ∀ (axes : List String) (dims : List Nat),
    axes.Nodup → axes.length = dims.length →
    axes.map (ProcessTopology.mk axes dims).get_dim = dims := by
  intro axes
  induction axes with
  | nil =>
    intro dims _ hlen
    cases dims with
    | nil => rfl
    | cons d ds => simp at hlen
  | cons a as ih =>
    intro dims hnd hlen
    cases dims with
    | nil => simp at hlen
    | cons d ds =>
      rw [List.map_cons]
      have hhead : (ProcessTopology.mk (a :: as) (d :: ds)).get_dim a = d := by
        rw [ProcessTopology.get_dim]
        simp [idxOf?]
      have htail : ∀ b ∈ as, (ProcessTopology.mk (a :: as) (d :: ds)).get_dim b =
          (ProcessTopology.mk as ds).get_dim b := by
        intro b hb
        have hba : ¬a = b := fun h => (List.nodup_cons.mp hnd).1 (h ▸ hb)
        rw [ProcessTopology.get_dim, ProcessTopology.get_dim]
        simp only [idxOf?, if_neg hba]
        cases hio : idxOf? b as with
        | none => simp [hio]
        | some i => simp [hio]
      rw [hhead, map_congr_mem htail,
        ih ds (List.nodup_cons.mp hnd).2 (by simpa using hlen)]

theorem is_grid_valid_iff (t : ProcessTopology) (hnd : t.axes.Nodup)
    (hax : t.axes.length = t.dims.length) (ws : Nat) :
    _is_grid_valid t ws = true ↔ t.dims.prod = ws := by
  rw [_is_grid_valid, foldl_mul_eq]
  rw [show t.axes.map t.get_dim = t.dims from map_get_dim t.axes t.dims hnd hax]
  rw [Nat.one_mul]
  exact beq_iff_eq

/-- C5: whenever the product of the topology dimensions differs from the
backend world size, grid construction fails immediately with the
"Invalid Grid" error — before any group-creation call is issued — and never
truncates or wraps ranks. -/
theorem c5_invalid_grid (t : ProcessTopology) (hnd : t.axes.Nodup)
    (hax : t.axes.length = t.dims.length) (g ws : Nat)
    (hne : t.dims.prod ≠ ws) :
    (buildGrid t g ws).2 = some PyError.invalidGrid ∧
    (buildGrid t g ws).1.trace = [] := by
  have hval : _is_grid_valid t ws = false := by
    cases h : _is_grid_valid t ws with
    | true => exact absurd ((is_grid_valid_iff t hnd hax ws).mp h) hne
    | false => rfl
  constructor
  · simp [buildGrid, hval]
  · simp [buildGrid, hval]

/-- Witness for C5: `dims=[2,2,1]` (product 4) with world size 5 fails with
the invalid-grid error and an empty group-creation trace. -/
theorem c5_witness :
    (buildGrid (stdTopo 2 2 1) 0 5).2 = some PyError.invalidGrid ∧
    (buildGrid (stdTopo 2 2 1) 0 5).1.trace = [] :=
  c5_invalid_grid (stdTopo 2 2 1) (by decide) (by decide) 0 5 (by decide)


/-! ## Claim C10: groups are created twice, not once -/

/-- C10 evaluation: on the valid topology `dims=[3,1,1]` (world size 3) the
construction succeeds, but because `__init__` invokes `_build_grads_groups`
and `_build_activation_groups` twice each, every gradient/activation group's
`dist.new_group` call is issued twice: the member list `[0, 1]` (the
gradient group keyed at stage 1 and the activation group keyed at stage 0)
is passed to the backend four times in one construction. -/
theorem c10_duplicate_group_creation :
    (buildGrid (stdTopo 3 1 1) 0 3).2 = none ∧
    (buildGrid (stdTopo 3 1 1) 0 3).1.trace =
      [[0, 1, 2], [0], [1], [2], [0, 1], [1, 2], [0, 1], [1, 2],
        [0, 1], [1, 2], [0, 1], [1, 2], [0, 1, 2], [0], [1], [2]] ∧
    List.count [0, 1] (buildGrid (stdTopo 3 1 1) 0 3).1.trace = 4 := by
  refine ⟨rfl, rfl, rfl⟩


/-! ## Claim C3: `get_axis_comm_lists` -/

theorem insertAt_length : ∀ (j k : Nat) (c : List Nat), j ≤ c.length →
    (insertAt j k c).length = c.length + 1
  | 0, _, c, _ => by simp [insertAt]
  | j + 1, _, [], h => by simp at h
  | j + 1, k, x :: c, h => by
    rw [insertAt, List.length_cons, List.length_cons,
      insertAt_length j k c (by simpa using h)]

theorem eraseIdx_insertAt : ∀ (j k : Nat) (c : List Nat), j ≤ c.length →
    (insertAt j k c).eraseIdx j = c
  | 0, _, c, _ => rfl
  | j + 1, _, [], h => by simp at h
  | j + 1, k, x :: c, h => by
    rw [insertAt, List.eraseIdx, eraseIdx_insertAt j k c (by simpa using h)]

theorem insertAt_getD : ∀ (j k : Nat) (c : List Nat), j ≤ c.length →
    (insertAt j k c).getD j 0 = k
  | 0, _, c, _ => rfl
  | j + 1, _, [], h => by simp at h
  | j + 1, k, x :: c, h => by
    rw [insertAt, List.getD_cons_succ, insertAt_getD j k c (by simpa using h)]

theorem insertAt_of_eraseIdx : ∀ (j : Nat) (c : List Nat), j < c.length →
    insertAt j (c.getD j 0) (c.eraseIdx j) = c
  | 0, [], h => by simp at h
  | 0, x :: c, _ => rfl
  | j + 1, [], h => by simp at h
  | j + 1, x :: c, h => by
    rw [List.getD_cons_succ, List.eraseIdx, insertAt,
      insertAt_of_eraseIdx j c (by simpa using h)]

theorem validCoord_insertAt : ∀ (dims c : List Nat) (j k : Nat),
    j < dims.length → ValidCoord (dims.eraseIdx j) c → k < dims.getD j 0 →
    ValidCoord dims (insertAt j k c)
  | [], _, j, _, hj, _, _ => by simp at hj
  | d :: ds, c, 0, k, _, hv, hk =>
    List.Forall₂.cons (by simpa using hk) (by simpa [List.eraseIdx] using hv)
  | d :: ds, c, j + 1, k, hj, hv, hk => by
    rw [List.eraseIdx] at hv
    cases hv with
    | cons h1 h2 =>
      rw [insertAt]
      exact List.Forall₂.cons h1
        (validCoord_insertAt ds _ j k (by simpa using hj) h2 (by simpa using hk))

theorem validCoord_eraseIdx : ∀ (dims c : List Nat) (j : Nat),
    ValidCoord dims c → ValidCoord (dims.eraseIdx j) (c.eraseIdx j)
  | _, _, _, List.Forall₂.nil => by simp [List.eraseIdx]; exact List.Forall₂.nil
  | _ :: ds, _ :: cs, 0, List.Forall₂.cons _ h2 => by simpa [List.eraseIdx] using h2
  | _ :: ds, _ :: cs, j + 1, List.Forall₂.cons h1 h2 => by
    rw [List.eraseIdx, List.eraseIdx]
    exact List.Forall₂.cons h1 (validCoord_eraseIdx ds cs j h2)

theorem getD_lt_of_valid : ∀ {dims c : List Nat} {j : Nat},
    ValidCoord dims c → j < c.length → c.getD j 0 < dims.getD j 0 := by
  intro dims c j hv
  induction hv generalizing j with
  | nil => intro h; simp at h
  | cons h1 h2 ih =>
    intro hj
    cases j with
    | zero => simpa using h1
    | succ i =>
      rw [List.getD_cons_succ, List.getD_cons_succ]
      exact ih (by simpa using hj)

theorem map_eraseIdx {α β : Type} (f : α → β) : ∀ (l : List α) (j : Nat),
    (l.eraseIdx j).map f = (l.map f).eraseIdx j
  | [], _ => rfl
  | x :: xs, 0 => rfl
  | x :: xs, j + 1 => by
    rw [List.eraseIdx, List.map_cons, List.map_cons, List.eraseIdx,
      map_eraseIdx f xs j]

theorem filter_ne_of_not_mem {a : String} : ∀ {l : List String}, a ∉ l →
    l.filter (fun x => x ≠ a) = l
  | [], _ => rfl
  | x :: xs, h => by
    have hx : x ≠ a := fun hh => h (hh ▸ List.mem_cons_self x xs)
    rw [List.filter_cons_of_pos (by simpa using hx),
      filter_ne_of_not_mem fun hh => h (List.mem_cons_of_mem _ hh)]

theorem filter_ne_eq_eraseIdx : ∀ {axes : List String} {a : String} {j : Nat},
    axes.Nodup → idxOf? a axes = some j →
    axes.filter (fun x => x ≠ a) = axes.eraseIdx j := by
  intro axes
  induction axes with
  | nil => intro a j _ hj; simp [idxOf?] at hj
  | cons b rest ih =>
    intro a j hnd hj
    by_cases hba : b = a
    · rw [idxOf?, if_pos hba] at hj
      cases hj
      subst hba
      rw [List.eraseIdx]
      rw [List.filter_cons_of_neg (by simp)]
      exact filter_ne_of_not_mem (List.nodup_cons.mp hnd).1
    · rw [idxOf?, if_neg hba] at hj
      cases hj2 : idxOf? a rest with
      | none => rw [hj2] at hj; cases hj
      | some i =>
        rw [hj2] at hj
        simp only [Option.map] at hj
        cases hj
        rw [List.eraseIdx]
        rw [List.filter_cons_of_pos (by simpa using fun hh : b = a => hba hh)]
        rw [ih (List.nodup_cons.mp hnd).2 hj2]

theorem mem_eraseIdx_of_ne : ∀ {rest : List String} {a x : String} {j : Nat},
    idxOf? a rest = some j → x ∈ rest → x ≠ a → x ∈ rest.eraseIdx j := by
  intro rest
  induction rest with
  | nil => intro a x j hj; simp [idxOf?] at hj
  | cons y ys ih =>
    intro a x j hj hx hxa
    by_cases hya : y = a
    · rw [idxOf?, if_pos hya] at hj
      cases hj
      rw [List.eraseIdx]
      rcases List.mem_cons.mp hx with rfl | h2
      · exact absurd hya hxa
      · exact h2
    · rw [idxOf?, if_neg hya] at hj
      cases hj2 : idxOf? a ys with
      | none => rw [hj2] at hj; cases hj
      | some i =>
        rw [hj2] at hj
        simp only [Option.map] at hj
        cases hj
        rw [List.eraseIdx]
        rcases List.mem_cons.mp hx with rfl | h2
        · exact List.mem_cons_self _ _
        · exact List.mem_cons_of_mem _ (ih hj2 h2 hxa)

theorem map_getD_idxOfNat : ∀ (l : List String) (cm : List Nat), l.Nodup →
    cm.length = l.length →
    l.map (fun x => cm.getD (idxOfNat x l) 0) = cm := by
  intro l
  induction l with
  | nil =>
    intro cm _ hlen
    cases cm with
    | nil => rfl
    | cons c cs => simp at hlen
  | cons y ys ih =>
    intro cm hnd hlen
    cases cm with
    | nil => simp at hlen
    | cons c0 cs =>
      rw [List.map_cons]
      have hhead : (c0 :: cs).getD (idxOfNat y (y :: ys)) 0 = c0 := by
        simp [idxOfNat, idxOf?]
      have htail : ∀ x ∈ ys,
          (c0 :: cs).getD (idxOfNat x (y :: ys)) 0 =
            cs.getD (idxOfNat x ys) 0 := by
        intro x hx
        have hyx : ¬y = x := fun hh => (List.nodup_cons.mp hnd).1 (hh ▸ hx)
        obtain ⟨i, hi⟩ := mem_iff_idxOf?_isSome.mp hx
        simp [idxOfNat, idxOf?, hyx, hi]
      rw [hhead, map_congr_mem htail,
        ih cs (List.nodup_cons.mp hnd).2 (by simpa using hlen)]

theorem buildKey_eq_insertAt : ∀ (axes : List String) (a : String) (j : Nat),
    axes.Nodup → idxOf? a axes = some j →
    ∀ (cm : List Nat) (k : Nat), cm.length + 1 = axes.length →
    buildKey axes (axes.eraseIdx j) cm a k = insertAt j k cm := by
  intro axes
  induction axes with
  | nil => intro a j _ hj; simp [idxOf?] at hj
  | cons b rest ih =>
    intro a j hnd hj cm k hlen
    by_cases hba : b = a
    · rw [idxOf?, if_pos hba] at hj
      cases hj
      subst hba
      rw [List.eraseIdx, buildKey, List.map_cons, if_pos rfl]
      have hnotmem : b ∉ rest := (List.nodup_cons.mp hnd).1
      have htail : ∀ x ∈ rest,
          (if x = b then k else cm.getD (idxOfNat x rest) 0) =
            cm.getD (idxOfNat x rest) 0 := by
        intro x hx
        have hxb : ¬x = b := fun hh => hnotmem (hh ▸ hx)
        rw [if_neg hxb]
      rw [map_congr_mem htail,
        map_getD_idxOfNat rest cm (List.nodup_cons.mp hnd).2 (by simpa using hlen)]
      rfl
    · rw [idxOf?, if_neg hba] at hj
      cases hj2 : idxOf? a rest with
      | none => rw [hj2] at hj; cases hj
      | some i =>
        rw [hj2] at hj
        simp only [Option.map] at hj
        cases hj
        have hmem : a ∈ rest := idxOf?_mem hj2
        cases cm with
        | nil =>
          exfalso
          have : rest.length = 0 := by simpa using hlen.symm
          rw [List.length_eq_zero.mp this] at hmem
          simp at hmem
        | cons c0 cs =>
          rw [List.eraseIdx, buildKey, List.map_cons,
            if_neg (fun hh : b = a => hba hh)]
          have hhead : (c0 :: cs).getD (idxOfNat b (b :: rest.eraseIdx i)) 0 = c0 := by
            simp [idxOfNat, idxOf?]
          have hbrest : b ∉ rest := (List.nodup_cons.mp hnd).1
          have htail : ∀ x ∈ rest,
              (if x = a then k
                else (c0 :: cs).getD (idxOfNat x (b :: rest.eraseIdx i)) 0) =
              (if x = a then k else cs.getD (idxOfNat x (rest.eraseIdx i)) 0) := by
            intro x hx
            by_cases hxa : x = a
            · rw [if_pos hxa, if_pos hxa]
            · rw [if_neg hxa, if_neg hxa]
              have hxb : ¬b = x := fun hh => hbrest (hh ▸ hx)
              have hxe : x ∈ rest.eraseIdx i := mem_eraseIdx_of_ne hj2 hx hxa
              obtain ⟨ii, hii⟩ := mem_iff_idxOf?_isSome.mp hxe
              simp [idxOfNat, idxOf?, hxb, hii]
          rw [hhead, map_congr_mem htail]
          have hrec := ih a i (List.nodup_cons.mp hnd).2 hj2 cs k
            (by simpa using hlen)
          rw [buildKey] at hrec
          rw [hrec]
          rfl

theorem getD_map_range {G : Nat → Nat} {n kk : Nat} (h : kk < n) :
    ((List.range n).map G).getD kk 0 = G kk := by
  rw [List.getD_eq_getElem?_getD, List.getElem?_map, List.getElem?_range h]
  rfl

/-- When a coordinate is valid, the source's `self.mapping[key]` access in
`get_axis_comm_lists` returns its row-major rank. -/
theorem lookupRank_buildKey (t : ProcessTopology) {c : List Nat}
    (hv : ValidCoord t.dims c) :
    lookupRank c t.mapping = some (rowMajorRank t.dims c) := by
  rw [ProcessTopology.mapping, lookupRank_mappingFrom, ProcessTopology.coords_def,
    idxOf?_cartesianProduct hv]
  rfl

theorem get_coord_inv (t : ProcessTopology) {r : Nat} {c : List Nat}
    (h : t.get_coord r = some c) :
    ValidCoord t.dims c ∧ r = rowMajorRank t.dims c := by
  rw [t.get_coord_eq] at h
  have hv : ValidCoord t.dims c :=
    mem_cartesianProduct.mp (List.get?_mem h)
  have h1 : idxOf? c t.coords = some r :=
    idxOf?_of_get? (nodup_cartesianProduct t.dims) h
  have h2 : idxOf? c t.coords = some (rowMajorRank t.dims c) :=
    idxOf?_cartesianProduct hv
  rw [h1] at h2
  exact ⟨hv, by injection h2⟩

/-- Closed form of `get_axis_comm_lists` on a well-formed topology: one list
per combination of the other axes' values, each entry the row-major rank of
the combination with the axis value inserted at the axis position. -/
theorem comm_lists_closed_form (t : ProcessTopology) (hnd : t.axes.Nodup)
    (hax : t.axes.length = t.dims.length) {a : String} {j : Nat}
    (hj : idxOf? a t.axes = some j) :
    t.get_axis_comm_lists a =
      (cartesianProduct (t.dims.eraseIdx j)).map fun cm =>
        (List.range (t.dims.getD j 0)).map fun kk =>
          rowMajorRank t.dims (insertAt j kk cm) := by
  have hmem : a ∈ t.axes := idxOf?_mem hj
  have hjlt : j < t.axes.length := idxOf?_lt_length hj
  rw [ProcessTopology.get_axis_comm_lists, if_neg (not_not_intro hmem)]
  simp only []
  rw [filter_ne_eq_eraseIdx hnd hj, map_eraseIdx,
    map_get_dim t.axes t.dims hnd hax]
  have hdim : t.get_dim a = t.dims.getD j 0 := by
    rw [ProcessTopology.get_dim, hj]
  refine map_congr_mem ?_
  intro cm hcm
  have hcmv : ValidCoord (t.dims.eraseIdx j) cm := mem_cartesianProduct.mp hcm
  have hcmlen : cm.length + 1 = t.axes.length := by
    have h1 : cm.length = (t.dims.eraseIdx j).length :=
      List.Forall₂.length_eq hcmv
    have h2 : (t.dims.eraseIdx j).length = t.dims.length - 1 := by
      rw [List.length_eraseIdx]
      simp [show j < t.dims.length from hax ▸ hjlt]
    omega
  rw [hdim]
  refine map_congr_mem ?_
  intro kk hkk
  rw [buildKey_eq_insertAt t.axes a j hnd hj cm kk hcmlen]
  have hkey : ValidCoord t.dims (insertAt j kk cm) :=
    validCoord_insertAt t.dims cm j kk (hax ▸ hjlt) hcmv
      (by simpa using List.mem_range.mp hkk)
  rw [lookupRank_buildKey t hkey]
  rfl

/-- C3: for a declared axis, the communicator lists have length
`get_dim axis`, tile the full rank set `[0, world_size)`, are ordered by
increasing coordinate along the axis (the `kk`-th entry's coordinate has
value `kk` there), and each list consists exactly of the ranks agreeing with
one fixed assignment of all other axes; for an undeclared axis the result is
the empty list. -/
theorem c3_axis_comm_lists (t : ProcessTopology) (hnd : t.axes.Nodup)
    (hax : t.axes.length = t.dims.length) :
    (∀ b, b ∉ t.axes → t.get_axis_comm_lists b = []) ∧
    (∀ a j, idxOf? a t.axes = some j →
      (∀ l ∈ t.get_axis_comm_lists a, l.length = t.get_dim a) ∧
      (∀ r, (∃ l ∈ t.get_axis_comm_lists a, r ∈ l) ↔ r < t.world_size) ∧
      (∀ l ∈ t.get_axis_comm_lists a, ∀ kk, kk < l.length →
        ∃ c, t.get_coord (l.getD kk 0) = some c ∧ c.getD j 0 = kk) ∧
      (∀ l ∈ t.get_axis_comm_lists a, ∃ o, ∀ r,
        r ∈ l ↔ ∃ c, t.get_coord r = some c ∧ c.eraseIdx j = o)) := by
  constructor
  · intro b hb
    rw [ProcessTopology.get_axis_comm_lists, if_pos hb]
  · intro a j hj
    have hjlt : j < t.axes.length := idxOf?_lt_length hj
    have hjd : j < t.dims.length := hax ▸ hjlt
    have hdim : t.get_dim a = t.dims.getD j 0 := by
      rw [ProcessTopology.get_dim, hj]
    have hcf := comm_lists_closed_form t hnd hax hj
    have hinsv : ∀ (cm : List Nat), ValidCoord (t.dims.eraseIdx j) cm →
        ∀ (kk : Nat), kk < t.dims.getD j 0 → ValidCoord t.dims (insertAt j kk cm) :=
      fun cm hcm kk hkk => validCoord_insertAt t.dims cm j kk hjd hcm hkk
    have hlcm : ∀ (cm : List Nat), ValidCoord (t.dims.eraseIdx j) cm →
        j ≤ cm.length := by
      intro cm hcm
      have h1 : cm.length = (t.dims.eraseIdx j).length := List.Forall₂.length_eq hcm
      rw [List.length_eraseIdx] at h1
      simp [hjd] at h1
      omega
    refine ⟨?_, ?_, ?_, ?_⟩
    · intro l hl
      rw [hcf] at hl
      obtain ⟨cm, -, rfl⟩ := List.mem_map.mp hl
      rw [List.length_map, List.length_range, hdim]
    · intro r
      constructor
      · rintro ⟨l, hl, hr⟩
        rw [hcf] at hl
        obtain ⟨cm, hcm, rfl⟩ := List.mem_map.mp hl
        obtain ⟨kk, hkk, rfl⟩ := List.mem_map.mp hr
        exact t.rowMajorRank_lt
          (hinsv _ (mem_cartesianProduct.mp hcm) _ (List.mem_range.mp hkk))
      · intro hr
        obtain ⟨c, hc, hcv, -⟩ := t.get_coord_lt hr
        obtain ⟨-, hrr⟩ := get_coord_inv t hc
        have hclen : c.length = t.dims.length := List.Forall₂.length_eq hcv
        refine ⟨(List.range (t.dims.getD j 0)).map fun kk =>
            rowMajorRank t.dims (insertAt j kk (c.eraseIdx j)), ?_, ?_⟩
        · rw [hcf]
          exact List.mem_map.mpr ⟨c.eraseIdx j,
            mem_cartesianProduct.mpr (validCoord_eraseIdx t.dims c j hcv), rfl⟩
        · refine List.mem_map.mpr ⟨c.getD j 0,
            List.mem_range.mpr (getD_lt_of_valid hcv (by omega)), ?_⟩
          rw [insertAt_of_eraseIdx j c (by omega), hrr]
    · intro l hl kk hkl
      rw [hcf] at hl
      obtain ⟨cm, hcm, rfl⟩ := List.mem_map.mp hl
      rw [List.length_map, List.length_range] at hkl
      have hcmv := mem_cartesianProduct.mp hcm
      have hkv := hinsv _ hcmv _ hkl
      refine ⟨insertAt j kk cm, ?_, ?_⟩
      · rw [getD_map_range hkl, t.get_coord_eq, ProcessTopology.coords_def]
        exact idxOf?_get? (idxOf?_cartesianProduct hkv)
      · exact insertAt_getD j kk cm (hlcm _ hcmv)
    · intro l hl
      rw [hcf] at hl
      obtain ⟨cm, hcm, rfl⟩ := List.mem_map.mp hl
      have hcmv := mem_cartesianProduct.mp hcm
      refine ⟨cm, ?_⟩
      intro r
      constructor
      · intro hr
        obtain ⟨kk, hkk, rfl⟩ := List.mem_map.mp hr
        have hkv := hinsv _ hcmv _ (List.mem_range.mp hkk)
        refine ⟨insertAt j kk cm, ?_, eraseIdx_insertAt j kk cm (hlcm _ hcmv)⟩
        rw [t.get_coord_eq, ProcessTopology.coords_def]
        exact idxOf?_get? (idxOf?_cartesianProduct hkv)
      · rintro ⟨c, hc, rfl⟩
        obtain ⟨hcv, hrr⟩ := get_coord_inv t hc
        have hclen : c.length = t.dims.length := List.Forall₂.length_eq hcv
        refine List.mem_map.mpr ⟨c.getD j 0,
          List.mem_range.mpr (getD_lt_of_valid hcv (by omega)), ?_⟩
        rw [insertAt_of_eraseIdx j c (by omega), hrr]

/-- Witness for C3 on `axes=[pipe,data,model], dims=[2,2,2]`: the pipe-axis
lists tile all 8 ranks and each has length 2; the undeclared axis case is
empty. -/
theorem c3_witness :
    (stdTopo 2 2 2).get_axis_comm_lists "nonexistent" = [] ∧
    (∀ l ∈ (stdTopo 2 2 2).get_axis_comm_lists "pipe",
      l.length = (stdTopo 2 2 2).get_dim "pipe") ∧
    ((∃ l ∈ (stdTopo 2 2 2).get_axis_comm_lists "pipe", 5 ∈ l) ↔
      5 < (stdTopo 2 2 2).world_size) := by
  have h := c3_axis_comm_lists (stdTopo 2 2 2) (by decide) (by decide)
  have h2 := h.2 "pipe" 0 (by decide)
  exact ⟨h.1 "nonexistent" (by decide), h2.1, h2.2.1 5⟩


/-! ## Claim C2: activation and gradient groups -/

theorem eq_of_sorted_lt_mem {l₁ l₂ : List Nat} (h₁ : List.Sorted (· < ·) l₁)
    (h₂ : List.Sorted (· < ·) l₂) (h : ∀ x, x ∈ l₁ ↔ x ∈ l₂) : l₁ = l₂ :=
  List.eq_of_perm_of_sorted
    ((List.perm_ext_iff_of_nodup h₁.nodup h₂.nodup).mpr h) h₁.le_of_lt h₂.le_of_lt

/-- Reusable characterization of `filter_match` over declared constraints
(sorted ascending, membership by coordinate agreement). -/
theorem filter_match_spec (t : ProcessTopology) {fs : List (String × Nat)}
    (h : ∀ av ∈ fs, av.1 ∈ t.axes) :
    ∃ l, t.filter_match fs = some l ∧ List.Sorted (· < ·) l ∧
      ∀ r, r ∈ l ↔ ∃ c, t.get_coord r = some c ∧
        ∀ av ∈ fs, coordAttr t.axes c av.1 = some av.2 := by
  refine ⟨_, filterMatchAux_eq h t.mapping, ?_, ?_⟩
  · rw [ProcessTopology.mapping]
    exact sorted_rankFilter_mappingFrom
  · intro r
    rw [ProcessTopology.mapping, mem_rankFilter_mappingFrom]
    constructor
    · rintro ⟨-, c, hc, hPc⟩
      refine ⟨c, ?_, ?_⟩
      · rw [t.get_coord_eq]
        simpa using hc
      · obtain ⟨b, hb, hbiff⟩ := filterHelper_spec h c
        rw [hb] at hPc
        exact hbiff.mp (by simpa using hPc)
    · rintro ⟨c, hc, hall⟩
      rw [t.get_coord_eq] at hc
      refine ⟨Nat.zero_le r, c, by simpa using hc, ?_⟩
      obtain ⟨b, hb, hbiff⟩ := filterHelper_spec h c
      rw [hb]
      simp [hbiff.mpr hall]

theorem stdTopo_axes (p d m : Nat) :
    (stdTopo p d m).axes = ["pipe", "data", "model"] := rfl

theorem stdTopo_ws (p d m : Nat) :
    (stdTopo p d m).world_size = p * d * m := by
  rw [ProcessTopology.world_size_eq]
  show ([p, d, m] : List Nat).prod = p * d * m
  simp [List.prod_cons]
  ring

theorem coord3_shape {p d m : Nat} {c : List Nat}
    (hv : ValidCoord [p, d, m] c) :
    c = [c.getD 0 0, c.getD 1 0, c.getD 2 0] ∧
    c.getD 0 0 < p ∧ c.getD 1 0 < d ∧ c.getD 2 0 < m := by
  cases hv with
  | cons h0 hrest =>
    cases hrest with
    | cons h1 hrest2 =>
      cases hrest2 with
      | cons h2 hnil =>
        cases hnil
        exact ⟨rfl, h0, h1, h2⟩

theorem coordAttr_std_data {p d m : Nat} (c : List Nat) (v : Nat) :
    coordAttr (stdTopo p d m).axes c "data" = some v ↔ c.getD 1 0 = v := by
  rw [coordAttr]
  rw [show idxOf? "data" (stdTopo p d m).axes = some 1 from rfl]
  simp

theorem coordAttr_std_pipe {p d m : Nat} (c : List Nat) (v : Nat) :
    coordAttr (stdTopo p d m).axes c "pipe" = some v ↔ c.getD 0 0 = v := by
  rw [coordAttr]
  rw [show idxOf? "pipe" (stdTopo p d m).axes = some 0 from rfl]
  simp

theorem coordAttr_std_model {p d m : Nat} (c : List Nat) (v : Nat) :
    coordAttr (stdTopo p d m).axes c "model" = some v ↔ c.getD 2 0 = v := by
  rw [coordAttr]
  rw [show idxOf? "model" (stdTopo p d m).axes = some 2 from rfl]
  simp

/-- `filter_match(data=dp, pipe=st)` on the standard topology returns
`pdRanks`. -/
theorem stdTopo_pd_decl (p d m dp st : Nat) :
    ∀ av ∈ ([("data", dp), ("pipe", st)] : List (String × Nat)),
      av.1 ∈ (stdTopo p d m).axes := by
  intro av hav
  rw [stdTopo_axes]
  rcases List.mem_cons.mp hav with rfl | hav2
  · simp
  · rcases List.mem_cons.mp hav2 with rfl | hav3
    · simp
    · simp at hav3

theorem stdTopo_filter_pd (p d m dp st : Nat) :
    (stdTopo p d m).filter_match [("data", dp), ("pipe", st)] =
      some (pdRanks p d m dp st) :=
  filterMatchAux_eq (stdTopo_pd_decl p d m dp st) _

theorem pdRanks_sorted (p d m dp st : Nat) :
    List.Sorted (· < ·) (pdRanks p d m dp st) := by
  rw [pdRanks, ProcessTopology.mapping]
  exact sorted_rankFilter_mappingFrom

theorem mem_pdRanks {p d m dp st r : Nat} :
    r ∈ pdRanks p d m dp st ↔ ∃ c, (stdTopo p d m).get_coord r = some c ∧
      c.getD 1 0 = dp ∧ c.getD 0 0 = st := by
  obtain ⟨l, hl, -, hmem⟩ :=
    filter_match_spec (stdTopo p d m) (stdTopo_pd_decl p d m dp st)
  rw [stdTopo_filter_pd] at hl
  injection hl with hl
  rw [hl, hmem r]
  constructor
  · rintro ⟨c, hc, hall⟩
    refine ⟨c, hc, ?_, ?_⟩
    · exact (coordAttr_std_data c dp).mp (hall ("data", dp) (by simp))
    · exact (coordAttr_std_pipe c st).mp (hall ("pipe", st) (by simp))
  · rintro ⟨c, hc, h1, h0⟩
    refine ⟨c, hc, ?_⟩
    intro av hav
    rcases List.mem_cons.mp hav with rfl | hav2
    · exact (coordAttr_std_data c dp).mpr h1
    · rcases List.mem_cons.mp hav2 with rfl | hav3
      · exact (coordAttr_std_pipe c st).mpr h0
      · simp at hav3


theorem get_coord_rowMajor (t : ProcessTopology) {c : List Nat}
    (hv : ValidCoord t.dims c) :
    t.get_coord (rowMajorRank t.dims c) = some c := by
  rw [t.get_coord_eq, ProcessTopology.coords_def]
  exact idxOf?_get? (idxOf?_cartesianProduct hv)

theorem stdTopo_coord_src {p d m dp st : Nat} (hdp : dp < d) (hst : st < p)
    (hm : 1 ≤ m) :
    (stdTopo p d m).get_coord (srcRank p d m (dp, st)) = some [st, dp, 0] := by
  rw [srcRank]
  exact get_coord_rowMajor (stdTopo p d m)
    (List.Forall₂.cons hst (List.Forall₂.cons hdp
      (List.Forall₂.cons (by omega) List.Forall₂.nil)))

theorem stdTopo_full_decl (p d m dp st mm : Nat) :
    ∀ av ∈ ([("data", dp), ("pipe", st), ("model", mm)] : List (String × Nat)),
      av.1 ∈ (stdTopo p d m).axes := by
  intro av hav
  rw [stdTopo_axes]
  rcases List.mem_cons.mp hav with rfl | hav2
  · simp
  · rcases List.mem_cons.mp hav2 with rfl | hav3
    · simp
    · rcases List.mem_cons.mp hav3 with rfl | hav4
      · simp
      · simp at hav4

/-- `filter_match(data=dp, pipe=st, model=mm)` pins the full coordinate:
the result is the singleton of its row-major rank. -/
theorem stdTopo_filter_full {p d m dp st mm : Nat} (hdp : dp < d)
    (hst : st < p) (hmm : mm < m) :
    (stdTopo p d m).filter_match [("data", dp), ("pipe", st), ("model", mm)] =
      some [rowMajorRank [p, d, m] [st, dp, mm]] := by
  obtain ⟨l, hl, hs, hmem⟩ :=
    filter_match_spec (stdTopo p d m) (stdTopo_full_decl p d m dp st mm)
  rw [hl]
  refine congrArg some (eq_of_sorted_lt_mem hs (List.sorted_singleton _) ?_)
  have hv : ValidCoord [p, d, m] [st, dp, mm] :=
    List.Forall₂.cons hst (List.Forall₂.cons hdp
      (List.Forall₂.cons hmm List.Forall₂.nil))
  intro x
  rw [hmem x, List.mem_singleton]
  constructor
  · rintro ⟨c, hc, hall⟩
    have h1 := (coordAttr_std_data c dp).mp (hall ("data", dp) (by simp))
    have h0 := (coordAttr_std_pipe c st).mp (hall ("pipe", st) (by simp))
    have h2 := (coordAttr_std_model c mm).mp (hall ("model", mm) (by simp))
    obtain ⟨hcv, hxr⟩ := get_coord_inv (stdTopo p d m) hc
    obtain ⟨hcshape, -, -, -⟩ := coord3_shape hcv
    have hceq : c = [st, dp, mm] := by rw [hcshape, h0, h1, h2]
    rw [hxr, hceq]
    rfl
  · rintro rfl
    refine ⟨[st, dp, mm], get_coord_rowMajor (stdTopo p d m) hv, ?_⟩
    intro av hav
    rcases List.mem_cons.mp hav with rfl | hav2
    · exact (coordAttr_std_data _ dp).mpr rfl
    · rcases List.mem_cons.mp hav2 with rfl | hav3
      · exact (coordAttr_std_pipe _ st).mpr rfl
      · rcases List.mem_cons.mp hav3 with rfl | hav4
        · exact (coordAttr_std_model _ mm).mpr rfl
        · simp at hav4

theorem mem_specActGroup {p d m dp st x : Nat} :
    x ∈ specActGroup p d m dp st ↔
      ∃ c, (stdTopo p d m).get_coord x = some c ∧ c.getD 1 0 = dp ∧
        (c.getD 0 0 = st + 1 ∨ (c.getD 0 0 = st ∧ c.getD 2 0 = 0)) := by
  rw [specActGroup, List.mem_filter, List.mem_range]
  constructor
  · rintro ⟨hx, hpred⟩
    cases hc : (stdTopo p d m).get_coord x with
    | none => rw [hc] at hpred; simp [Option.elim] at hpred
    | some c =>
      rw [hc] at hpred
      simp only [Option.elim] at hpred
      refine ⟨c, rfl, ?_⟩
      simpa using hpred
  · rintro ⟨c, hc, h1, h0⟩
    obtain ⟨hcv, hxr⟩ := get_coord_inv (stdTopo p d m) hc
    constructor
    · have := (stdTopo p d m).rowMajorRank_lt hcv
      rw [stdTopo_ws] at this
      omega
    · rw [hc]
      simp only [Option.elim]
      rcases h0 with h0 | ⟨h0, h2⟩
      · rw [h1, h0]
        simp
      · rw [h1, h0, h2]
        simp

theorem mem_specGradsGroup {p d m dp st x : Nat} :
    x ∈ specGradsGroup p d m dp st ↔
      ∃ c, (stdTopo p d m).get_coord x = some c ∧ c.getD 1 0 = dp ∧
        (c.getD 0 0 = st - 1 ∨ (c.getD 0 0 = st ∧ c.getD 2 0 = 0)) := by
  rw [specGradsGroup, List.mem_filter, List.mem_range]
  constructor
  · rintro ⟨hx, hpred⟩
    cases hc : (stdTopo p d m).get_coord x with
    | none => rw [hc] at hpred; simp [Option.elim] at hpred
    | some c =>
      rw [hc] at hpred
      simp only [Option.elim] at hpred
      refine ⟨c, rfl, ?_⟩
      simpa using hpred
  · rintro ⟨c, hc, h1, h0⟩
    obtain ⟨hcv, hxr⟩ := get_coord_inv (stdTopo p d m) hc
    constructor
    · have := (stdTopo p d m).rowMajorRank_lt hcv
      rw [stdTopo_ws] at this
      omega
    · rw [hc]
      simp only [Option.elim]
      rcases h0 with h0 | ⟨h0, h2⟩
      · rw [h1, h0]
        simp
      · rw [h1, h0, h2]
        simp

theorem specActGroup_sorted (p d m dp st : Nat) :
    List.Sorted (· < ·) (specActGroup p d m dp st) :=
  List.Pairwise.filter _ (List.pairwise_lt_range _)

theorem specGradsGroup_sorted (p d m dp st : Nat) :
    List.Sorted (· < ·) (specGradsGroup p d m dp st) :=
  List.Pairwise.filter _ (List.pairwise_lt_range _)

/-- The group the source builds for `(dp, stage)` in the activation loop is
exactly the spec's sorted union. -/
theorem actGroupOf_eq_spec {p d m : Nat} (hm : 1 ≤ m) {q : Nat × Nat}
    (hq1 : q.1 < d) (hq2 : q.2 < p) :
    actGroupOf p d m q = specActGroup p d m q.1 q.2 := by
  obtain ⟨dp, st⟩ := q
  simp only at hq1 hq2
  have hsrc := stdTopo_coord_src hq1 hq2 hm
  have hnotmem : srcRank p d m (dp, st) ∉ pdRanks p d m dp (st + 1) := by
    intro hmem
    obtain ⟨c, hc, -, h0⟩ := mem_pdRanks.mp hmem
    rw [hsrc] at hc
    injection hc with hc
    rw [← hc] at h0
    simp at h0
  have hperm : (srcRank p d m (dp, st) :: pdRanks p d m dp (st + 1)).Perm
      (specActGroup p d m dp st) := by
    refine (List.perm_ext_iff_of_nodup
      (List.nodup_cons.mpr ⟨hnotmem, (pdRanks_sorted p d m dp (st + 1)).nodup⟩)
      (specActGroup_sorted p d m dp st).nodup).mpr ?_
    intro x
    rw [List.mem_cons, mem_pdRanks, mem_specActGroup]
    constructor
    · rintro (rfl | ⟨c, hc, h1, h0⟩)
      · exact ⟨[st, dp, 0], hsrc, rfl, Or.inr ⟨rfl, rfl⟩⟩
      · exact ⟨c, hc, h1, Or.inl h0⟩
    · rintro ⟨c, hc, h1, h0 | ⟨h0, h2⟩⟩
      · exact Or.inr ⟨c, hc, h1, h0⟩
      · left
        obtain ⟨hcv, hxr⟩ := get_coord_inv (stdTopo p d m) hc
        obtain ⟨hcshape, -, -, -⟩ := coord3_shape hcv
        have hceq : c = [st, dp, 0] := by rw [hcshape, h0, h1, h2]
        rw [hxr, hceq]
        rfl
  exact List.eq_of_perm_of_sorted
    ((List.perm_insertionSort _ _).trans hperm)
    (List.sorted_insertionSort _ _)
    (specActGroup_sorted p d m dp st).le_of_lt

/-- The group the source builds for `(dp, stage)` (`stage ≥ 1`) in the
gradient loop is exactly the spec's sorted union. -/
theorem gradsGroupOf_eq_spec {p d m : Nat} (hm : 1 ≤ m) {q : Nat × Nat}
    (hq1 : q.1 < d) (hq2 : q.2 < p) (hq2p : 1 ≤ q.2) :
    gradsGroupOf p d m q = specGradsGroup p d m q.1 q.2 := by
  obtain ⟨dp, st⟩ := q
  simp only at hq1 hq2 hq2p
  have hsrc := stdTopo_coord_src hq1 hq2 hm
  have hnotmem : srcRank p d m (dp, st) ∉ pdRanks p d m dp (st - 1) := by
    intro hmem
    obtain ⟨c, hc, -, h0⟩ := mem_pdRanks.mp hmem
    rw [hsrc] at hc
    injection hc with hc
    rw [← hc] at h0
    simp at h0
    omega
  have hperm : (srcRank p d m (dp, st) :: pdRanks p d m dp (st - 1)).Perm
      (specGradsGroup p d m dp st) := by
    refine (List.perm_ext_iff_of_nodup
      (List.nodup_cons.mpr ⟨hnotmem, (pdRanks_sorted p d m dp (st - 1)).nodup⟩)
      (specGradsGroup_sorted p d m dp st).nodup).mpr ?_
    intro x
    rw [List.mem_cons, mem_pdRanks, mem_specGradsGroup]
    constructor
    · rintro (rfl | ⟨c, hc, h1, h0⟩)
      · exact ⟨[st, dp, 0], hsrc, rfl, Or.inr ⟨rfl, rfl⟩⟩
      · exact ⟨c, hc, h1, Or.inl h0⟩
    · rintro ⟨c, hc, h1, h0 | ⟨h0, h2⟩⟩
      · exact Or.inr ⟨c, hc, h1, h0⟩
      · left
        obtain ⟨hcv, hxr⟩ := get_coord_inv (stdTopo p d m) hc
        obtain ⟨hcshape, -, -, -⟩ := coord3_shape hcv
        have hceq : c = [st, dp, 0] := by rw [hcshape, h0, h1, h2]
        rw [hxr, hceq]
        rfl
  exact List.eq_of_perm_of_sorted
    ((List.perm_insertionSort _ _).trans hperm)
    (List.sorted_insertionSort _ _)
    (specGradsGroup_sorted p d m dp st).le_of_lt


/-- One activation-loop step on the standard topology, in closed form. -/
theorem actStep_eq (p d m sid dpid : Nat) (hm : 1 ≤ m) (s : PairState)
    (q : Nat × Nat) (hq1 : q.1 < d) (hq2 : q.2 < p) :
    actStep (stdTopo p d m) p sid dpid s q =
      (if q.2 + 1 < p then
        (if q.2 = sid ∧ q.1 = dpid then
          { s with proc_groups := s.proc_groups ++ [actGroupOf p d m q],
                   trace := s.trace ++ [actGroupOf p d m q],
                   send_src := (srcRank p d m q : Int),
                   send_group := actGroupOf p d m q }
        else if q.2 + 1 = sid ∧ q.1 = dpid then
          { s with proc_groups := s.proc_groups ++ [actGroupOf p d m q],
                   trace := s.trace ++ [actGroupOf p d m q],
                   recv_src := (srcRank p d m q : Int),
                   recv_group := actGroupOf p d m q }
        else
          { s with proc_groups := s.proc_groups ++ [actGroupOf p d m q],
                   trace := s.trace ++ [actGroupOf p d m q] })
      else s, none) := by
  obtain ⟨dp, st⟩ := q
  simp only at hq1 hq2
  rw [actStep]
  by_cases hb : st + 1 < p
  · rw [if_pos hb, if_pos hb]
    rw [stdTopo_filter_full hq1 hq2 (by omega)]
    rw [stdTopo_filter_pd]
    simp only []
    by_cases hcs : st = sid ∧ dp = dpid
    · rw [if_pos hcs, if_pos hcs]
      rfl
    · rw [if_neg hcs, if_neg hcs]
      by_cases hcr : st + 1 = sid ∧ dp = dpid
      · rw [if_pos hcr, if_pos hcr]
        rfl
      · rw [if_neg hcr, if_neg hcr]
        rfl
  · rw [if_neg hb, if_neg hb]

theorem foldE_cons_none {σ α : Type} (f : σ → α → σ × Option PyError)
    (s s' : σ) (a : α) (l : List α) (h : f s a = (s', none)) :
    foldE f s (a :: l) = foldE f s' l := by
  rw [foldE, h]

theorem foldE_cons_some {σ α : Type} (f : σ → α → σ × Option PyError)
    (s s' : σ) (a : α) (l : List α) (e : PyError) (h : f s a = (s', some e)) :
    foldE f s (a :: l) = (s', some e) := by
  rw [foldE, h]

/-- Closed form of the whole activation loop on the standard topology:
it never raises, creates exactly one group per `(dp, stage)` pair that has a
next stage (in loop order), and the send/receive fields are the last writes
of the matching pairs. -/
theorem foldE_act_closed (p d m sid dpid : Nat) (hm : 1 ≤ m) :
    ∀ (L : List (Nat × Nat)) (s : PairState),
      (∀ q ∈ L, q.1 < d ∧ q.2 < p) →
      foldE (actStep (stdTopo p d m) p sid dpid) s L =
        ({ send_src := lastD s.send_src ((L.filter fun q =>
              decide (q.2 + 1 < p) && (decide (q.2 = sid) && decide (q.1 = dpid))).map
              fun q => (srcRank p d m q : Int)),
           recv_src := lastD s.recv_src ((L.filter fun q =>
              decide (q.2 + 1 < p) && (decide (q.2 + 1 = sid) && decide (q.1 = dpid) &&
                !(decide (q.2 = sid) && decide (q.1 = dpid)))).map
              fun q => (srcRank p d m q : Int)),
           send_group := lastD s.send_group ((L.filter fun q =>
              decide (q.2 + 1 < p) && (decide (q.2 = sid) && decide (q.1 = dpid))).map
              (actGroupOf p d m)),
           recv_group := lastD s.recv_group ((L.filter fun q =>
              decide (q.2 + 1 < p) && (decide (q.2 + 1 = sid) && decide (q.1 = dpid) &&
                !(decide (q.2 = sid) && decide (q.1 = dpid)))).map
              (actGroupOf p d m)),
           proc_groups := s.proc_groups ++ (L.filterMap fun q =>
              if q.2 + 1 < p then some (actGroupOf p d m q) else none),
           trace := s.trace ++ (L.filterMap fun q =>
              if q.2 + 1 < p then some (actGroupOf p d m q) else none) }, none) := by
  intro L
  induction L with
  | nil =>
    intro s _
    simp [foldE, lastD]
  | cons q L' ih =>
    intro s hL
    obtain ⟨hq1, hq2⟩ := hL q (List.mem_cons_self _ _)
    have hL' : ∀ q2 ∈ L', q2.1 < d ∧ q2.2 < p :=
      fun q2 hq => hL q2 (List.mem_cons_of_mem _ hq)
    have hstep := actStep_eq p d m sid dpid hm s q hq1 hq2
    by_cases hb : q.2 + 1 < p
    · by_cases hcs : q.2 = sid ∧ q.1 = dpid
      · rw [if_pos hb, if_pos hcs] at hstep
        rw [foldE_cons_none _ _ _ _ _ hstep, ih _ hL']
        have hne : ¬q.2 + 1 = sid := by omega
        have hd1 : (decide (q.2 + 1 < p) &&
            (decide (q.2 = sid) && decide (q.1 = dpid))) = true := by
          rw [decide_eq_true hb, decide_eq_true hcs.1, decide_eq_true hcs.2]
          rfl
        have hd2 : (decide (q.2 + 1 < p) &&
            (decide (q.2 + 1 = sid) && decide (q.1 = dpid) &&
              !(decide (q.2 = sid) && decide (q.1 = dpid)))) = false := by
          rw [decide_eq_false hne]
          simp
        have hd3 : (if q.2 + 1 < p then some (actGroupOf p d m q) else none) =
            some (actGroupOf p d m q) := if_pos hb
        simp only [List.filter_cons, List.filterMap_cons, hd1, hd2, hd3]
        simp [lastD, List.append_assoc]
      · by_cases hcr : q.2 + 1 = sid ∧ q.1 = dpid
        · rw [if_pos hb, if_neg hcs, if_pos hcr] at hstep
          rw [foldE_cons_none _ _ _ _ _ hstep, ih _ hL']
          have hne : ¬q.2 = sid := by omega
          have hd1 : (decide (q.2 + 1 < p) &&
              (decide (q.2 = sid) && decide (q.1 = dpid))) = false := by
            rw [decide_eq_false hne]
            simp
          have hd2 : (decide (q.2 + 1 < p) &&
              (decide (q.2 + 1 = sid) && decide (q.1 = dpid) &&
                !(decide (q.2 = sid) && decide (q.1 = dpid)))) = true := by
            rw [decide_eq_true hb, decide_eq_true hcr.1, decide_eq_true hcr.2,
              decide_eq_false hne]
            rfl
          have hd3 : (if q.2 + 1 < p then some (actGroupOf p d m q) else none) =
              some (actGroupOf p d m q) := if_pos hb
          simp only [List.filter_cons, List.filterMap_cons, hd1, hd2, hd3]
          simp [lastD, List.append_assoc]
        · rw [if_pos hb, if_neg hcs, if_neg hcr] at hstep
          rw [foldE_cons_none _ _ _ _ _ hstep, ih _ hL']
          have hd1 : (decide (q.2 + 1 < p) &&
              (decide (q.2 = sid) && decide (q.1 = dpid))) = false := by
            rcases Decidable.not_and_iff_or_not.mp hcs with h | h <;>
              rw [decide_eq_false h] <;> simp
          have hd2 : (decide (q.2 + 1 < p) &&
              (decide (q.2 + 1 = sid) && decide (q.1 = dpid) &&
                !(decide (q.2 = sid) && decide (q.1 = dpid)))) = false := by
            have hd1b : (decide (q.2 = sid) && decide (q.1 = dpid)) = false := by
              rcases Decidable.not_and_iff_or_not.mp hcs with h | h <;>
                rw [decide_eq_false h] <;> simp
            rcases Decidable.not_and_iff_or_not.mp hcr with h | h <;>
              rw [decide_eq_false h] <;> simp
          have hd3 : (if q.2 + 1 < p then some (actGroupOf p d m q) else none) =
              some (actGroupOf p d m q) := if_pos hb
          simp only [List.filter_cons, List.filterMap_cons, hd1, hd2, hd3]
          simp [lastD, List.append_assoc]
    · rw [if_neg hb] at hstep
      rw [foldE_cons_none _ _ _ _ _ hstep, ih _ hL']
      have hd1 : (decide (q.2 + 1 < p) &&
          (decide (q.2 = sid) && decide (q.1 = dpid))) = false := by
        rw [decide_eq_false hb]
        simp
      have hd2 : (decide (q.2 + 1 < p) &&
          (decide (q.2 + 1 = sid) && decide (q.1 = dpid) &&
            !(decide (q.2 = sid) && decide (q.1 = dpid)))) = false := by
        rw [decide_eq_false hb]
        simp
      have hd3 : (if q.2 + 1 < p then some (actGroupOf p d m q) else none) =
          none := if_neg hb
      simp only [List.filter_cons, List.filterMap_cons, hd1, hd2, hd3]
      simp


/-- One gradient-loop step on the standard topology, in closed form. -/
theorem gradsStep_eq (p d m sid dpid : Nat) (hm : 1 ≤ m) (s : PairState)
    (q : Nat × Nat) (hq1 : q.1 < d) (hq2 : q.2 < p) :
    gradsStep (stdTopo p d m) sid dpid s q =
      (if 0 < q.2 then
        (if q.2 = sid ∧ q.1 = dpid then
          { s with proc_groups := s.proc_groups ++ [gradsGroupOf p d m q],
                   trace := s.trace ++ [gradsGroupOf p d m q],
                   send_src := (srcRank p d m q : Int),
                   send_group := gradsGroupOf p d m q }
        else if q.2 = sid + 1 ∧ q.1 = dpid then
          { s with proc_groups := s.proc_groups ++ [gradsGroupOf p d m q],
                   trace := s.trace ++ [gradsGroupOf p d m q],
                   recv_src := (srcRank p d m q : Int),
                   recv_group := gradsGroupOf p d m q }
        else
          { s with proc_groups := s.proc_groups ++ [gradsGroupOf p d m q],
                   trace := s.trace ++ [gradsGroupOf p d m q] })
      else s, none) := by
  obtain ⟨dp, st⟩ := q
  simp only at hq1 hq2
  rw [gradsStep]
  by_cases hb : 0 < st
  · rw [if_pos hb, if_pos hb]
    rw [stdTopo_filter_full hq1 hq2 (by omega)]
    rw [stdTopo_filter_pd]
    simp only []
    by_cases hcs : st = sid ∧ dp = dpid
    · rw [if_pos hcs, if_pos hcs]
      rfl
    · rw [if_neg hcs, if_neg hcs]
      by_cases hcr : st = sid + 1 ∧ dp = dpid
      · rw [if_pos hcr, if_pos hcr]
        rfl
      · rw [if_neg hcr, if_neg hcr]
        rfl
  · rw [if_neg hb, if_neg hb]

/-- Closed form of the whole gradient loop on the standard topology. -/
theorem foldE_grads_closed (p d m sid dpid : Nat) (hm : 1 ≤ m) :
    ∀ (L : List (Nat × Nat)) (s : PairState),
      (∀ q ∈ L, q.1 < d ∧ q.2 < p) →
      foldE (gradsStep (stdTopo p d m) sid dpid) s L =
        ({ send_src := lastD s.send_src ((L.filter fun q =>
              decide (0 < q.2) && (decide (q.2 = sid) && decide (q.1 = dpid))).map
              fun q => (srcRank p d m q : Int)),
           recv_src := lastD s.recv_src ((L.filter fun q =>
              decide (0 < q.2) && (decide (q.2 = sid + 1) && decide (q.1 = dpid) &&
                !(decide (q.2 = sid) && decide (q.1 = dpid)))).map
              fun q => (srcRank p d m q : Int)),
           send_group := lastD s.send_group ((L.filter fun q =>
              decide (0 < q.2) && (decide (q.2 = sid) && decide (q.1 = dpid))).map
              (gradsGroupOf p d m)),
           recv_group := lastD s.recv_group ((L.filter fun q =>
              decide (0 < q.2) && (decide (q.2 = sid + 1) && decide (q.1 = dpid) &&
                !(decide (q.2 = sid) && decide (q.1 = dpid)))).map
              (gradsGroupOf p d m)),
           proc_groups := s.proc_groups ++ (L.filterMap fun q =>
              if 0 < q.2 then some (gradsGroupOf p d m q) else none),
           trace := s.trace ++ (L.filterMap fun q =>
              if 0 < q.2 then some (gradsGroupOf p d m q) else none) }, none) := by
  intro L
  induction L with
  | nil =>
    intro s _
    simp [foldE, lastD]
  | cons q L' ih =>
    intro s hL
    obtain ⟨hq1, hq2⟩ := hL q (List.mem_cons_self _ _)
    have hL' : ∀ q2 ∈ L', q2.1 < d ∧ q2.2 < p :=
      fun q2 hq => hL q2 (List.mem_cons_of_mem _ hq)
    have hstep := gradsStep_eq p d m sid dpid hm s q hq1 hq2
    by_cases hb : 0 < q.2
    · by_cases hcs : q.2 = sid ∧ q.1 = dpid
      · rw [if_pos hb, if_pos hcs] at hstep
        rw [foldE_cons_none _ _ _ _ _ hstep, ih _ hL']
        have hne : ¬q.2 = sid + 1 := by omega
        have hd1 : (decide (0 < q.2) &&
            (decide (q.2 = sid) && decide (q.1 = dpid))) = true := by
          rw [decide_eq_true hb, decide_eq_true hcs.1, decide_eq_true hcs.2]
          rfl
        have hd2 : (decide (0 < q.2) &&
            (decide (q.2 = sid + 1) && decide (q.1 = dpid) &&
              !(decide (q.2 = sid) && decide (q.1 = dpid)))) = false := by
          rw [decide_eq_false hne]
          simp
        have hd3 : (if 0 < q.2 then some (gradsGroupOf p d m q) else none) =
            some (gradsGroupOf p d m q) := if_pos hb
        simp only [List.filter_cons, List.filterMap_cons, hd1, hd2, hd3]
        simp [lastD, List.append_assoc]
      · by_cases hcr : q.2 = sid + 1 ∧ q.1 = dpid
        · rw [if_pos hb, if_neg hcs, if_pos hcr] at hstep
          rw [foldE_cons_none _ _ _ _ _ hstep, ih _ hL']
          have hne : ¬q.2 = sid := by omega
          have hd1 : (decide (0 < q.2) &&
              (decide (q.2 = sid) && decide (q.1 = dpid))) = false := by
            rw [decide_eq_false hne]
            simp
          have hd2 : (decide (0 < q.2) &&
              (decide (q.2 = sid + 1) && decide (q.1 = dpid) &&
                !(decide (q.2 = sid) && decide (q.1 = dpid)))) = true := by
            rw [decide_eq_true hb, decide_eq_true hcr.1, decide_eq_true hcr.2,
              decide_eq_false hne]
            rfl
          have hd3 : (if 0 < q.2 then some (gradsGroupOf p d m q) else none) =
              some (gradsGroupOf p d m q) := if_pos hb
          simp only [List.filter_cons, List.filterMap_cons, hd1, hd2, hd3]
          simp [lastD, List.append_assoc]
        · rw [if_pos hb, if_neg hcs, if_neg hcr] at hstep
          rw [foldE_cons_none _ _ _ _ _ hstep, ih _ hL']
          have hd1 : (decide (0 < q.2) &&
              (decide (q.2 = sid) && decide (q.1 = dpid))) = false := by
            rcases Decidable.not_and_iff_or_not.mp hcs with h | h <;>
              rw [decide_eq_false h] <;> simp
          have hd2 : (decide (0 < q.2) &&
              (decide (q.2 = sid + 1) && decide (q.1 = dpid) &&
                !(decide (q.2 = sid) && decide (q.1 = dpid)))) = false := by
            rcases Decidable.not_and_iff_or_not.mp hcr with h | h <;>
              rw [decide_eq_false h] <;> simp
          have hd3 : (if 0 < q.2 then some (gradsGroupOf p d m q) else none) =
              some (gradsGroupOf p d m q) := if_pos hb
          simp only [List.filter_cons, List.filterMap_cons, hd1, hd2, hd3]
          simp [lastD, List.append_assoc]
    · rw [if_neg hb] at hstep
      rw [foldE_cons_none _ _ _ _ _ hstep, ih _ hL']
      have hd1 : (decide (0 < q.2) &&
          (decide (q.2 = sid) && decide (q.1 = dpid))) = false := by
        rw [decide_eq_false hb]
        simp
      have hd2 : (decide (0 < q.2) &&
          (decide (q.2 = sid + 1) && decide (q.1 = dpid) &&
            !(decide (q.2 = sid) && decide (q.1 = dpid)))) = false := by
        rw [decide_eq_false hb]
        simp
      have hd3 : (if 0 < q.2 then some (gradsGroupOf p d m q) else none) =
          none := if_neg hb
      simp only [List.filter_cons, List.filterMap_cons, hd1, hd2, hd3]
      simp


theorem mem_pairsList {ds ps : Nat} {q : Nat × Nat} :
    q ∈ pairsList ds ps ↔ q.1 < ds ∧ q.2 < ps := by
  rw [pairsList]
  constructor
  · intro hq
    obtain ⟨a, ha, hq2⟩ := List.mem_flatMap.mp hq
    obtain ⟨b, hb, rfl⟩ := List.mem_map.mp hq2
    exact ⟨List.mem_range.mp ha, List.mem_range.mp hb⟩
  · rintro ⟨h1, h2⟩
    refine List.mem_flatMap.mpr ⟨q.1, List.mem_range.mpr h1, ?_⟩
    exact List.mem_map.mpr ⟨q.2, List.mem_range.mpr h2, rfl⟩

theorem nodup_pairsList (ds ps : Nat) : (pairsList ds ps).Nodup := by
  rw [pairsList, List.nodup_flatMap]
  refine ⟨fun i _ => List.Nodup.map (fun a b h => by injection h)
    (List.nodup_range ps), ?_⟩
  have hr : List.Pairwise (fun i j : Nat => i ≠ j) (List.range ds) :=
    (List.pairwise_lt_range ds).imp fun h => Nat.ne_of_lt h
  refine hr.imp ?_
  intro i j hij
  intro c hc hc2
  obtain ⟨b, -, rfl⟩ := List.mem_map.mp hc
  obtain ⟨b2, -, hb2⟩ := List.mem_map.mp hc2
  have : j = i := by injection hb2
  exact hij this.symm

theorem filterMap_congr_mem {α β : Type} {f g : α → Option β} :
    ∀ {l : List α}, (∀ a ∈ l, f a = g a) → l.filterMap f = l.filterMap g
  | [], _ => rfl
  | x :: xs, h => by
    rw [List.filterMap_cons, List.filterMap_cons, h x (List.mem_cons_self _ _),
      filterMap_congr_mem fun a ha => h a (List.mem_cons_of_mem _ ha)]

theorem filter_pairs_singleton {ds ps : Nat} {cond : Nat × Nat → Bool}
    (q0 : Nat × Nat) (hq0 : q0.1 < ds ∧ q0.2 < ps)
    (hiff : ∀ q, q.1 < ds → q.2 < ps → (cond q = true ↔ q = q0)) :
    (pairsList ds ps).filter cond = [q0] := by
  have hcongr : ∀ q ∈ pairsList ds ps, cond q = decide (q = q0) := by
    intro q hq
    obtain ⟨h1, h2⟩ := mem_pairsList.mp hq
    by_cases he : q = q0
    · rw [decide_eq_true he, (hiff q h1 h2).mpr he]
    · rw [decide_eq_false he]
      cases hc : cond q with
      | false => rfl
      | true => exact absurd ((hiff q h1 h2).mp hc) he
  rw [List.filter_congr hcongr, List.filter_eq,
    List.count_eq_one_of_mem (nodup_pairsList ds ps) (mem_pairsList.mpr hq0)]
  rfl

theorem filter_pairs_nil {ds ps : Nat} {cond : Nat × Nat → Bool}
    (hnone : ∀ q, q.1 < ds → q.2 < ps → cond q = false) :
    (pairsList ds ps).filter cond = [] := by
  have hcongr : ∀ q ∈ pairsList ds ps, cond q = (fun _ => false) q := by
    intro q hq
    obtain ⟨h1, h2⟩ := mem_pairsList.mp hq
    exact hnone q h1 h2
  rw [List.filter_congr hcongr]
  exact List.filter_false _


/-- C2 counterexample to the claim as stated: on a topology with pipe and
data axes but *no* model axis (here `PipeDataParallelTopology 2 1`, two
stages, the shape the grid itself builds when auto-deriving), the
activation/gradient group builders do not construct the described groups at
all — `filter_match(..., model=0)` raises `AttributeError` and the whole
grid construction aborts — so the forward-activation group for
`(data=0, stage=0)` is never the claimed `[0, 1]`. -/
theorem c2_counterexample :
    (_build_activation_groups (PipeDataParallelTopology 2 1) 1 2 0 0).2 =
      some PyError.attributeError ∧
    (_build_activation_groups (PipeDataParallelTopology 2 1) 1 2 0 0).1.send_group = [] ∧
    (_build_grads_groups (PipeDataParallelTopology 2 1) 1 2 0 0).2 =
      some PyError.attributeError ∧
    (buildGrid (PipeDataParallelTopology 2 1) 0 2).2 = some PyError.attributeError :=
  ⟨rfl, rfl, rfl, rfl⟩

/-- C2 (amended to topologies that declare a model axis): during grid
construction over `axes=[pipe,data,model]` with any positive dims, for every
`(data-parallel id, stage)` pair with `stage+1 < p` the forward-activation
group built is exactly the ascending-sorted union of the rank at
`(data, stage, model=0)` and all ranks at `(data, stage+1)` (`specActGroup`
filters the ascending rank range by exactly that union predicate); no group
is keyed at the last stage; the process at `(data, stage)` keeps it as its
send group and the process at `(data, stage+1)` keeps the same group as its
receive group.  The backward-gradient groups are the symmetric construction
keyed on `stage-1`, existing only for `stage > 0`, the owner of
`(data, stage)` keeping the send group and the owner of `(data, stage-1)`
the receive group. -/
theorem c2_activation_grads_groups (p d m : Nat) (hp : 1 ≤ p) (hd : 1 ≤ d)
    (hm : 1 ≤ m) (sid dpid : Nat) (hsid : sid < p) (hdpid : dpid < d) :
    (_build_activation_groups (stdTopo p d m) d p sid dpid).2 = none ∧
    (_build_activation_groups (stdTopo p d m) d p sid dpid).1.trace =
      ((pairsList d p).filterMap fun q =>
        if q.2 + 1 < p then some (specActGroup p d m q.1 q.2) else none) ∧
    (_build_activation_groups (stdTopo p d m) d p sid dpid).1.send_group =
      (if sid + 1 < p then specActGroup p d m dpid sid else []) ∧
    (_build_activation_groups (stdTopo p d m) d p sid dpid).1.recv_group =
      (if 1 ≤ sid then specActGroup p d m dpid (sid - 1) else []) ∧
    (_build_grads_groups (stdTopo p d m) d p sid dpid).2 = none ∧
    (_build_grads_groups (stdTopo p d m) d p sid dpid).1.trace =
      ((pairsList d p).filterMap fun q =>
        if 0 < q.2 then some (specGradsGroup p d m q.1 q.2) else none) ∧
    (_build_grads_groups (stdTopo p d m) d p sid dpid).1.send_group =
      (if 1 ≤ sid then specGradsGroup p d m dpid sid else []) ∧
    (_build_grads_groups (stdTopo p d m) d p sid dpid).1.recv_group =
      (if sid + 1 < p then specGradsGroup p d m dpid (sid + 1) else []) := by
  have hpairs : ∀ q ∈ pairsList d p, q.1 < d ∧ q.2 < p :=
    fun q hq => mem_pairsList.mp hq
  rw [_build_activation_groups, _build_grads_groups,
    foldE_act_closed p d m sid dpid hm _ {} hpairs,
    foldE_grads_closed p d m sid dpid hm _ {} hpairs]
  refine ⟨rfl, ?_, ?_, ?_, rfl, ?_, ?_, ?_⟩
  · show [] ++ _ = _
    rw [List.nil_append]
    refine filterMap_congr_mem ?_
    intro q hq
    obtain ⟨h1, h2⟩ := mem_pairsList.mp hq
    by_cases hb : q.2 + 1 < p
    · rw [if_pos hb, if_pos hb, actGroupOf_eq_spec hm h1 h2]
    · rw [if_neg hb, if_neg hb]
  · show lastD ([] : List Nat) _ = _
    by_cases hs : sid + 1 < p
    · rw [if_pos hs]
      rw [filter_pairs_singleton (dpid, sid) ⟨hdpid, hsid⟩ ?_]
      · rw [List.map_cons, List.map_nil]
        show actGroupOf p d m (dpid, sid) = _
        exact actGroupOf_eq_spec hm hdpid hsid
      · intro q hq1 hq2
        simp only [Bool.and_eq_true, decide_eq_true_eq]
        constructor
        · rintro ⟨-, hqs, hqd⟩
          exact Prod.ext hqd hqs
        · rintro rfl
          exact ⟨hs, rfl, rfl⟩
    · rw [if_neg hs]
      rw [filter_pairs_nil ?_]
      · rfl
      · intro q hq1 hq2
        by_cases hqs : q.2 = sid
        · have : ¬q.2 + 1 < p := by omega
          rw [decide_eq_false this]
          simp
        · rw [decide_eq_false hqs]
          simp
  · show lastD ([] : List Nat) _ = _
    by_cases hs : 1 ≤ sid
    · rw [if_pos hs]
      rw [filter_pairs_singleton (dpid, sid - 1) ⟨hdpid, by omega⟩ ?_]
      · rw [List.map_cons, List.map_nil]
        show actGroupOf p d m (dpid, sid - 1) = _
        exact actGroupOf_eq_spec hm hdpid (by omega)
      · intro q hq1 hq2
        simp only [Bool.and_eq_true, decide_eq_true_eq]
        constructor
        · rintro ⟨-, ⟨hqs, hqd⟩, -⟩
          refine Prod.ext hqd (by omega)
        · rintro rfl
          have h2 : ¬((dpid, sid - 1).2 = sid) := by simp; omega
          refine ⟨by omega, ⟨⟨by omega, by simp⟩, ?_⟩⟩
          rw [decide_eq_false h2]
          simp
    · rw [if_neg hs]
      rw [filter_pairs_nil ?_]
      · rfl
      · intro q hq1 hq2
        have : ¬q.2 + 1 = sid := by omega
        rw [decide_eq_false this]
        simp
  · show [] ++ _ = _
    rw [List.nil_append]
    refine filterMap_congr_mem ?_
    intro q hq
    obtain ⟨h1, h2⟩ := mem_pairsList.mp hq
    by_cases hb : 0 < q.2
    · rw [if_pos hb, if_pos hb, gradsGroupOf_eq_spec hm h1 h2 hb]
    · rw [if_neg hb, if_neg hb]
  · show lastD ([] : List Nat) _ = _
    by_cases hs : 1 ≤ sid
    · rw [if_pos hs]
      rw [filter_pairs_singleton (dpid, sid) ⟨hdpid, hsid⟩ ?_]
      · rw [List.map_cons, List.map_nil]
        show gradsGroupOf p d m (dpid, sid) = _
        exact gradsGroupOf_eq_spec hm hdpid hsid hs
      · intro q hq1 hq2
        simp only [Bool.and_eq_true, decide_eq_true_eq]
        constructor
        · rintro ⟨-, hqs, hqd⟩
          exact Prod.ext hqd hqs
        · rintro rfl
          exact ⟨hs, rfl, rfl⟩
    · rw [if_neg hs]
      rw [filter_pairs_nil ?_]
      · rfl
      · intro q hq1 hq2
        by_cases hqs : q.2 = sid
        · have : ¬0 < q.2 := by omega
          rw [decide_eq_false this]
          simp
        · rw [decide_eq_false hqs]
          simp
  · show lastD ([] : List Nat) _ = _
    by_cases hs : sid + 1 < p
    · rw [if_pos hs]
      rw [filter_pairs_singleton (dpid, sid + 1) ⟨hdpid, hs⟩ ?_]
      · rw [List.map_cons, List.map_nil]
        show gradsGroupOf p d m (dpid, sid + 1) = _
        exact gradsGroupOf_eq_spec hm hdpid hs (by omega)
      · intro q hq1 hq2
        simp only [Bool.and_eq_true, decide_eq_true_eq]
        constructor
        · rintro ⟨-, ⟨hqs, hqd⟩, -⟩
          exact Prod.ext hqd hqs
        · rintro rfl
          have h2 : ¬((dpid, sid + 1).2 = sid) := by simp
          refine ⟨by omega, ⟨⟨by simp, by simp⟩, ?_⟩⟩
          rw [decide_eq_false h2]
          simp
    · rw [if_neg hs]
      rw [filter_pairs_nil ?_]
      · rfl
      · intro q hq1 hq2
        have : ¬q.2 = sid + 1 := by omega
        rw [decide_eq_false this]
        simp

/-- Witness for C2 at `dims=[2,2,2]`, caller at `(stage=0, data=1)`:
the send activation group is `{rank(0,1,0)} ∪ {ranks at (pipe=1, data=1)}
= [2, 6, 7]`, there is no receive group at stage 0, and the gradient
receive group keyed at stage 1 is `[2, 6, 7]`. -/
theorem c2_witness :
    (_build_activation_groups (stdTopo 2 2 2) 2 2 0 1).1.send_group = [2, 6, 7] ∧
    (_build_activation_groups (stdTopo 2 2 2) 2 2 0 1).1.recv_group = [] ∧
    (_build_grads_groups (stdTopo 2 2 2) 2 2 0 1).1.recv_group = [2, 3, 6] := by
  obtain ⟨-, -, hsend, hrecv, -, -, -, hgrecv⟩ :=
    c2_activation_grads_groups 2 2 2 (by decide) (by decide) (by decide) 0 1
      (by decide) (by decide)
  refine ⟨?_, ?_, ?_⟩
  · rw [hsend]
    decide
  · rw [hrecv]
    rfl
  · rw [hgrecv]
    decide


/-! ## Claim C4: the group-creation call sequence is rank-independent -/

theorem dsModelLoop_proj (t : ProcessTopology) (rank : Nat) :
    ∀ (L : List Nat) (s : DsState),
      (dsModelLoop t rank s L).1.trace = s.trace ++ (dsTraceAux t L).1 ∧
      (dsModelLoop t rank s L).2 = (dsTraceAux t L).2 := by
  intro L
  induction L with
  | nil =>
    intro s
    simp [dsModelLoop, dsTraceAux]
  | cons dp rest ih =>
    intro s
    rw [dsModelLoop, dsTraceAux]
    cases h : t.get_axis_list "data" dp with
    | none => simp
    | some ranks0 =>
      simp only []
      cases hrec : dsTraceAux t rest with
      | mk tr e =>
        by_cases hr : rank ∈ sortNat ranks0
        · rw [if_pos hr]
          refine ⟨?_, ?_⟩
          · rw [(ih _).1, hrec]
            simp
          · rw [(ih _).2, hrec]
        · rw [if_neg hr]
          refine ⟨?_, ?_⟩
          · rw [(ih _).1, hrec]
            simp
          · rw [(ih _).2, hrec]

theorem foldE_grads_proj (t : ProcessTopology) (sid dpid : Nat) :
    ∀ (L : List (Nat × Nat)) (s : PairState),
      (foldE (gradsStep t sid dpid) s L).1.trace =
        s.trace ++ (gradsTraceAux t L).1 ∧
      (foldE (gradsStep t sid dpid) s L).2 = (gradsTraceAux t L).2 := by
  intro L
  induction L with
  | nil =>
    intro s
    simp [foldE, gradsTraceAux]
  | cons q rest ih =>
    intro s
    rw [gradsTraceAux]
    by_cases hb : 0 < q.2
    · rw [if_pos hb]
      cases h1 : t.filter_match [("data", q.1), ("pipe", q.2), ("model", 0)] with
      | none =>
        have hstep : gradsStep t sid dpid s q = (s, some PyError.attributeError) := by
          rw [gradsStep, if_pos hb, h1]
        rw [foldE_cons_some _ _ _ _ _ _ hstep]
        simp
      | some srcl =>
        cases srcl with
        | nil =>
          have hstep : gradsStep t sid dpid s q = (s, some PyError.indexError) := by
            rw [gradsStep, if_pos hb, h1]
          rw [foldE_cons_some _ _ _ _ _ _ hstep]
          simp
        | cons src srest =>
          cases h2 : t.filter_match [("data", q.1), ("pipe", q.2 - 1)] with
          | none =>
            have hstep : gradsStep t sid dpid s q =
                (s, some PyError.attributeError) := by
              rw [gradsStep, if_pos hb, h1, h2]
            rw [foldE_cons_some _ _ _ _ _ _ hstep]
            simp
          | some prev =>
            have hstep : ∃ s', gradsStep t sid dpid s q = (s', none) ∧
                s'.trace = s.trace ++ [sortNat (src :: prev)] := by
              rw [gradsStep, if_pos hb, h1, h2]
              simp only []
              by_cases hcs : q.2 = sid ∧ q.1 = dpid
              · rw [if_pos hcs]
                exact ⟨_, rfl, rfl⟩
              · rw [if_neg hcs]
                by_cases hcr : q.2 = sid + 1 ∧ q.1 = dpid
                · rw [if_pos hcr]
                  exact ⟨_, rfl, rfl⟩
                · rw [if_neg hcr]
                  exact ⟨_, rfl, rfl⟩
            obtain ⟨s', hs', htr⟩ := hstep
            rw [foldE_cons_none _ _ _ _ _ hs']
            cases hrec : gradsTraceAux t rest with
            | mk tr e =>
              have := ih s'
              rw [hrec] at this
              rw [this.1, this.2, htr]
              simp [List.append_assoc]
    · rw [if_neg hb]
      have hstep : gradsStep t sid dpid s q = (s, none) := by
        rw [gradsStep, if_neg hb]
      rw [foldE_cons_none _ _ _ _ _ hstep]
      exact ih s

theorem foldE_act_proj (t : ProcessTopology) (psize sid dpid : Nat) :
    ∀ (L : List (Nat × Nat)) (s : PairState),
      (foldE (actStep t psize sid dpid) s L).1.trace =
        s.trace ++ (actTraceAux t psize L).1 ∧
      (foldE (actStep t psize sid dpid) s L).2 = (actTraceAux t psize L).2 := by
  intro L
  induction L with
  | nil =>
    intro s
    simp [foldE, actTraceAux]
  | cons q rest ih =>
    intro s
    rw [actTraceAux]
    by_cases hb : q.2 + 1 < psize
    · rw [if_pos hb]
      cases h1 : t.filter_match [("data", q.1), ("pipe", q.2), ("model", 0)] with
      | none =>
        have hstep : actStep t psize sid dpid s q =
            (s, some PyError.attributeError) := by
          rw [actStep, if_pos hb, h1]
        rw [foldE_cons_some _ _ _ _ _ _ hstep]
        simp
      | some srcl =>
        cases srcl with
        | nil =>
          have hstep : actStep t psize sid dpid s q =
              (s, some PyError.indexError) := by
            rw [actStep, if_pos hb, h1]
          rw [foldE_cons_some _ _ _ _ _ _ hstep]
          simp
        | cons src srest =>
          cases h2 : t.filter_match [("data", q.1), ("pipe", q.2 + 1)] with
          | none =>
            have hstep : actStep t psize sid dpid s q =
                (s, some PyError.attributeError) := by
              rw [actStep, if_pos hb, h1, h2]
            rw [foldE_cons_some _ _ _ _ _ _ hstep]
            simp
          | some next =>
            have hstep : ∃ s', actStep t psize sid dpid s q = (s', none) ∧
                s'.trace = s.trace ++ [sortNat (src :: next)] := by
              rw [actStep, if_pos hb, h1, h2]
              simp only []
              by_cases hcs : q.2 = sid ∧ q.1 = dpid
              · rw [if_pos hcs]
                exact ⟨_, rfl, rfl⟩
              · rw [if_neg hcs]
                by_cases hcr : q.2 + 1 = sid ∧ q.1 = dpid
                · rw [if_pos hcr]
                  exact ⟨_, rfl, rfl⟩
                · rw [if_neg hcr]
                  exact ⟨_, rfl, rfl⟩
            obtain ⟨s', hs', htr⟩ := hstep
            rw [foldE_cons_none _ _ _ _ _ hs']
            cases hrec : actTraceAux t psize rest with
            | mk tr e =>
              have := ih s'
              rw [hrec] at this
              rw [this.1, this.2, htr]
              simp [List.append_assoc]
    · rw [if_neg hb]
      have hstep : actStep t psize sid dpid s q = (s, none) := by
        rw [actStep, if_neg hb]
      rw [foldE_cons_none _ _ _ _ _ hstep]
      exact ih s


theorem get?_mappingFrom : ∀ (L : List (List Nat)) (k i : Nat),
    (mappingFrom k L).get? i = (L.get? i).map (fun c => (c, k + i)) := by
  intro L
  induction L with
  | nil => intro k i; simp [mappingFrom]
  | cons c L' ih =>
    intro k i
    cases i with
    | zero => simp [mappingFrom]
    | succ i =>
      rw [mappingFrom, List.get?_cons_succ, List.get?_cons_succ, ih (k + 1) i]
      cases L'.get? i with
      | none => rfl
      | some c' =>
        exact congrArg some (by show (c', k + 1 + i) = (c', k + (i + 1)); rw [Nat.add_assoc, Nat.add_comm 1 i])

theorem mem_mapping_of_get_coord (t : ProcessTopology) {r : Nat} {me : List Nat}
    (h : t.get_coord r = some me) : (me, r) ∈ t.mapping := by
  rw [t.get_coord_eq] at h
  have hm : t.mapping.get? r = some (me, r) := by
    rw [ProcessTopology.mapping, get?_mappingFrom, h]
    simp
  exact List.get?_mem hm

theorem mem_get_axis_list (t : ProcessTopology) {axis : String} {j : Nat}
    (hj : idxOf? axis t.axes = some j) {r : Nat} {me : List Nat}
    (hc : t.get_coord r = some me) :
    ∃ l, t.get_axis_list axis (me.getD j 0) = some l ∧ r ∈ l := by
  rw [ProcessTopology.get_axis_list, hj]
  refine ⟨_, rfl, ?_⟩
  exact List.mem_filterMap.mpr ⟨(me, r), mem_mapping_of_get_coord t hc, by simp⟩

theorem get_axis_list_isSome (t : ProcessTopology) {axis : String} {j : Nat}
    (hj : idxOf? axis t.axes = some j) (i : Nat) :
    ∃ l, t.get_axis_list axis i = some l := by
  rw [ProcessTopology.get_axis_list, hj]
  exact ⟨_, rfl⟩

theorem validCoord_set {dims c : List Nat} (j v : Nat) (hv : ValidCoord dims c)
    (hlt : v < dims.getD j 0) : ValidCoord dims (c.set j v) := by
  induction hv generalizing j with
  | nil => cases j <;> exact List.Forall₂.nil
  | cons h1 h2 ih =>
    cases j with
    | zero => exact List.Forall₂.cons (by simpa using hlt) h2
    | succ i => exact List.Forall₂.cons h1 (ih i (by simpa using hlt))

theorem getD_mem_of_lt {l : List Nat} {j : Nat} (h : j < l.length) :
    l.getD j 0 ∈ l := by
  rw [List.getD_eq_getElem?_getD, List.getElem?_eq_getElem h]
  exact List.getElem_mem h

theorem dims_pos_of_prod_pos {l : List Nat} (h : 0 < l.prod) {x : Nat}
    (hx : x ∈ l) : 0 < x := by
  rcases Nat.eq_zero_or_pos x with rfl | hp
  · rw [List.prod_eq_zero hx] at h
    exact absurd h (by omega)
  · exact hp

theorem keepLoop_some (rank : Nat) :
    ∀ (L : List (List Nat)) (g0 : List Nat),
      ∃ g, keepLoop rank (some g0) L = some g := by
  intro L
  induction L with
  | nil => intro g0; exact ⟨g0, rfl⟩
  | cons gg rest ih =>
    intro g0
    rw [keepLoop]
    by_cases hr : rank ∈ gg
    · rw [if_pos hr]; exact ih gg
    · rw [if_neg hr]; exact ih g0

theorem keepLoop_covered (rank : Nat) :
    ∀ (L : List (List Nat)) (kept : Option (List Nat)),
      (∃ g ∈ L, rank ∈ g) → ∃ g, keepLoop rank kept L = some g := by
  intro L
  induction L with
  | nil => rintro kept ⟨g, hg, -⟩; simp at hg
  | cons gg rest ih =>
    rintro kept ⟨g, hg, hr⟩
    rw [keepLoop]
    rcases List.mem_cons.mp hg with rfl | hg2
    · rw [if_pos hr]
      exact keepLoop_some rank rest g
    · by_cases hrg : rank ∈ gg
      · rw [if_pos hrg]; exact keepLoop_some rank rest gg
      · rw [if_neg hrg]; exact ih kept ⟨g, hg2, hr⟩

theorem dsModelLoop_dsrank_mono (t : ProcessTopology) (rank : Nat) :
    ∀ (L : List Nat) (s : DsState), 0 ≤ s.dsrank →
      0 ≤ (dsModelLoop t rank s L).1.dsrank := by
  intro L
  induction L with
  | nil => intro s hs; exact hs
  | cons dp rest ih =>
    intro s hs
    rw [dsModelLoop]
    cases h : t.get_axis_list "data" dp with
    | none => exact hs
    | some ranks0 =>
      simp only []
      by_cases hr : rank ∈ sortNat ranks0
      · rw [if_pos hr]
        exact ih _ (Int.natCast_nonneg _)
      · rw [if_neg hr]
        exact ih _ hs

theorem dsModelLoop_dsrank_hit (t : ProcessTopology) (rank : Nat) :
    ∀ (L : List Nat) (s : DsState) (dp : Nat), dp ∈ L →
      (∀ i, i ∈ L → ∃ l, t.get_axis_list "data" i = some l) →
      (∀ l, t.get_axis_list "data" dp = some l → rank ∈ sortNat l) →
      0 ≤ (dsModelLoop t rank s L).1.dsrank := by
  intro L
  induction L with
  | nil => intro s dp hdp _ _; simp at hdp
  | cons d rest ih =>
    intro s dp hdp hall hmem
    obtain ⟨l, hl⟩ := hall d (List.mem_cons_self d rest)
    rw [dsModelLoop, hl]
    simp only []
    rcases List.mem_cons.mp hdp with rfl | hdp2
    · rw [if_pos (hmem l hl)]
      exact dsModelLoop_dsrank_mono t rank rest _ (Int.natCast_nonneg _)
    · by_cases hr : rank ∈ sortNat l
      · rw [if_pos hr]
        exact dsModelLoop_dsrank_mono t rank rest _ (Int.natCast_nonneg _)
      · rw [if_neg hr]
        exact ih _ dp hdp2 (fun i hi => hall i (List.mem_cons_of_mem _ hi)) hmem

theorem comm_lists_cover (t : ProcessTopology) (hnd : t.axes.Nodup)
    (hax : t.axes.length = t.dims.length) {a : String} {j : Nat}
    (hj : idxOf? a t.axes = some j) {r : Nat} {c : List Nat}
    (hc : t.get_coord r = some c) :
    ∃ g ∈ t.get_axis_comm_lists a, r ∈ g := by
  obtain ⟨hcv, hrr⟩ := get_coord_inv t hc
  have hjlt : j < t.axes.length := idxOf?_lt_length hj
  have hjd : j < t.dims.length := hax ▸ hjlt
  have hclen : c.length = t.dims.length := List.Forall₂.length_eq hcv
  have hcf := comm_lists_closed_form t hnd hax hj
  refine ⟨(List.range (t.dims.getD j 0)).map fun kk =>
      rowMajorRank t.dims (insertAt j kk (c.eraseIdx j)), ?_, ?_⟩
  · rw [hcf]
    exact List.mem_map.mpr ⟨c.eraseIdx j,
      mem_cartesianProduct.mpr (validCoord_eraseIdx t.dims c j hcv), rfl⟩
  · refine List.mem_map.mpr ⟨c.getD j 0,
      List.mem_range.mpr (getD_lt_of_valid hcv (by omega)), ?_⟩
    rw [insertAt_of_eraseIdx j c (by omega), hrr]

theorem ds_loop_proj (t : ProcessTopology) (rank : Nat) (L : List Nat) :
    (dsModelLoop t rank ⟨[], -1, []⟩ L).1.trace = (dsTraceAux t L).1 ∧
    (dsModelLoop t rank ⟨[], -1, []⟩ L).2 = (dsTraceAux t L).2 := by
  have h := dsModelLoop_proj t rank L ⟨[], -1, []⟩
  simpa using h

theorem grads_groups_proj (t : ProcessTopology) (dsz psz sid dpid : Nat) :
    (_build_grads_groups t dsz psz sid dpid).1.trace =
      (gradsTraceAux t (pairsList dsz psz)).1 ∧
    (_build_grads_groups t dsz psz sid dpid).2 =
      (gradsTraceAux t (pairsList dsz psz)).2 := by
  have h := foldE_grads_proj t sid dpid (pairsList dsz psz) {}
  simpa [_build_grads_groups] using h

theorem act_groups_proj (t : ProcessTopology) (dsz psz sid dpid : Nat) :
    (_build_activation_groups t dsz psz sid dpid).1.trace =
      (actTraceAux t psz (pairsList dsz psz)).1 ∧
    (_build_activation_groups t dsz psz sid dpid).2 =
      (actTraceAux t psz (pairsList dsz psz)).2 := by
  have h := foldE_act_proj t psz sid dpid (pairsList dsz psz) {}
  simpa [_build_activation_groups] using h

theorem stage_to_global_isSome (t : ProcessTopology)
    (hax : t.axes.length = t.dims.length) {r : Nat} {me : List Nat}
    (hme : t.get_coord r = some me) {jp jd jm : Nat}
    (hjp : idxOf? "pipe" t.axes = some jp)
    (hjd : idxOf? "data" t.axes = some jd)
    (hjm : idxOf? "model" t.axes = some jm)
    (hm : 0 < t.dims.getD jm 0) :
    ∃ v, stage_to_global t r (me.getD jp 0)
        [("data", me.getD jd 0), ("model", 0)] = some v := by
  obtain ⟨hmev, -⟩ := get_coord_inv t hme
  have hmelen : me.length = t.dims.length := List.Forall₂.length_eq hmev
  have hjp2 : jp < me.length := by
    rw [hmelen, ← hax]; exact idxOf?_lt_length hjp
  have hjd2 : jd < me.length := by
    rw [hmelen, ← hax]; exact idxOf?_lt_length hjd
  have hv1 : ValidCoord t.dims (me.set jp (me.getD jp 0)) :=
    validCoord_set jp _ hmev (getD_lt_of_valid hmev hjp2)
  have hv2 : ValidCoord t.dims ((me.set jp (me.getD jp 0)).set jd (me.getD jd 0)) :=
    validCoord_set jd _ hv1 (getD_lt_of_valid hmev hjd2)
  have hv3 : ValidCoord t.dims
      (((me.set jp (me.getD jp 0)).set jd (me.getD jd 0)).set jm 0) :=
    validCoord_set jm 0 hv2 hm
  have hrep : replaceAxes t.axes me
      (("pipe", me.getD jp 0) :: [("data", me.getD jd 0), ("model", 0)]) =
      some (((me.set jp (me.getD jp 0)).set jd (me.getD jd 0)).set jm 0) := by
    simp only [replaceAxes, hjp, hjd, hjm]
  rw [stage_to_global, hme]
  simp only [hrep]
  exact ⟨_, t.get_rank_valid hax hv3⟩


set_option maxHeartbeats 2000000 in
theorem buildGrid_trace_eq (t : ProcessTopology) (hnd : t.axes.Nodup)
    (hax : t.axes.length = t.dims.length) {ws r : Nat} (hr : r < ws) :
    (buildGrid t r ws).1.trace = gridTrace t ws := by
  cases hv : _is_grid_valid t ws with
  | false => simp [buildGrid, gridTrace, hv]
  | true =>
    have hws : t.dims.prod = ws := (is_grid_valid_iff t hnd hax ws).mp hv
    have hrws : r < t.world_size := by rw [t.world_size_eq, hws]; exact hr
    obtain ⟨me, hme, hmev, -⟩ := t.get_coord_lt hrws
    have hmelen : me.length = t.dims.length := List.Forall₂.length_eq hmev
    cases hjp : idxOf? "pipe" t.axes with
    | none =>
      have hcap : coordAttr t.axes me "pipe" = none := by rw [coordAttr, hjp]; rfl
      simp [buildGrid, gridTrace, hv, hjp, hme, hcap]
    | some jp =>
    have hcap : coordAttr t.axes me "pipe" = some (me.getD jp 0) := by
      rw [coordAttr, hjp]; rfl
    cases hjd : idxOf? "data" t.axes with
    | none =>
      have hcad : coordAttr t.axes me "data" = none := by rw [coordAttr, hjd]; rfl
      simp [buildGrid, gridTrace, hv, hjp, hjd, hme, hcap, hcad]
    | some jd =>
    have hcad : coordAttr t.axes me "data" = some (me.getD jd 0) := by
      rw [coordAttr, hjd]; rfl
    have hpr : 0 < t.dims.prod := by rw [hws]; omega
    obtain ⟨mval, hmodel⟩ : ∃ mv,
        (if "model" ∈ t.axes then coordAttr t.axes me "model" else some 0) =
          some mv := by
      by_cases hmm : "model" ∈ t.axes
      · obtain ⟨jm, hjm⟩ := mem_iff_idxOf?_isSome.mp hmm
        rw [if_pos hmm, coordAttr, hjm]
        exact ⟨_, rfl⟩
      · rw [if_neg hmm]; exact ⟨0, rfl⟩
    obtain ⟨sval, hslice⟩ : ∃ sv, (if "model" ∈ t.axes then
        stage_to_global t r (me.getD jp 0) [("data", me.getD jd 0), ("model", 0)]
      else some 0) = some sv := by
      by_cases hmm : "model" ∈ t.axes
      · obtain ⟨jm, hjm⟩ := mem_iff_idxOf?_isSome.mp hmm
        rw [if_pos hmm]
        refine stage_to_global_isSome t hax hme hjp hjd hjm
          (dims_pos_of_prod_pos hpr (getD_mem_of_lt ?_))
        rw [← hax]; exact idxOf?_lt_length hjm
      · rw [if_neg hmm]; exact ⟨0, rfl⟩
    simp only [List.getD_eq_getElem?_getD] at hslice
    have hdp_lt : me.getD jd 0 < max (t.get_dim "data") 1 := by
      have h1 : me.getD jd 0 < t.dims.getD jd 0 :=
        getD_lt_of_valid hmev (by rw [hmelen, ← hax]; exact idxOf?_lt_length hjd)
      have h2 : t.get_dim "data" = t.dims.getD jd 0 := by
        rw [ProcessTopology.get_dim, hjd]
      omega
    have hhit : 0 ≤ (dsModelLoop t r ⟨[], -1, []⟩
        (List.range (max (t.get_dim "data") 1))).1.dsrank := by
      obtain ⟨l0, hl0, hrl0⟩ := mem_get_axis_list t hjd hme
      refine dsModelLoop_dsrank_hit t r _ _ (me.getD jd 0)
        (List.mem_range.mpr hdp_lt) (fun i _ => get_axis_list_isSome t hjd i) ?_
      intro l hl
      rw [hl0] at hl
      cases hl
      exact (List.perm_insertionSort _ l0).mem_iff.mpr hrl0
    cases hdt : dsTraceAux t (List.range (max (t.get_dim "data") 1)) with
    | mk tr0 e0 =>
    cases hds : dsModelLoop t r ⟨[], -1, []⟩
        (List.range (max (t.get_dim "data") 1)) with
    | mk ds de =>
    rw [hds] at hhit
    obtain ⟨hdtr, hde⟩ := ds_loop_proj t r (List.range (max (t.get_dim "data") 1))
    rw [hds, hdt] at hdtr hde
    simp only [] at hdtr hde hhit
    subst hde
    cases de with
    | some err =>
      simp [buildGrid, gridTrace, hv, hjp, hjd, hme, hcap, hcad, hmodel, hslice,
        hds, hdt, hdtr]
    | none =>
    have hdsr : ¬ (ds.dsrank ≤ -1) := by omega
    cases hp2p : _build_p2p_groups t (max (t.get_dim "pipe") 1) ws with
    | mk pl pe =>
    cases pe with
    | some perr =>
      simp [buildGrid, gridTrace, hv, hjp, hjd, hme, hcap, hcad, hmodel, hslice,
        hds, hdt, hdtr, if_neg hdsr, hp2p]
    | none =>
    cases hgt : gradsTraceAux t
        (pairsList (max (t.get_dim "data") 1) (max (t.get_dim "pipe") 1)) with
    | mk gtr ge =>
    cases hg : _build_grads_groups t (max (t.get_dim "data") 1)
        (max (t.get_dim "pipe") 1) (me.getD jp 0) (me.getD jd 0) with
    | mk g1 gerr =>
    obtain ⟨hgtr, hgerr⟩ := grads_groups_proj t (max (t.get_dim "data") 1)
      (max (t.get_dim "pipe") 1) (me.getD jp 0) (me.getD jd 0)
    rw [hg, hgt] at hgtr hgerr
    simp only [] at hgtr hgerr
    simp only [List.getD_eq_getElem?_getD] at hg
    subst hgerr
    cases gerr with
    | some gerr2 =>
      simp [buildGrid, gridTrace, hv, hjp, hjd, hme, hcap, hcad, hmodel, hslice,
        hds, hdt, hdtr, if_neg hdsr, hp2p, hg, hgt, hgtr, List.append_assoc]
    | none =>
    cases hat : actTraceAux t (max (t.get_dim "pipe") 1)
        (pairsList (max (t.get_dim "data") 1) (max (t.get_dim "pipe") 1)) with
    | mk atr ae =>
    cases ha : _build_activation_groups t (max (t.get_dim "data") 1)
        (max (t.get_dim "pipe") 1) (me.getD jp 0) (me.getD jd 0) with
    | mk a1 aerr =>
    obtain ⟨hatr, haerr⟩ := act_groups_proj t (max (t.get_dim "data") 1)
      (max (t.get_dim "pipe") 1) (me.getD jp 0) (me.getD jd 0)
    rw [ha, hat] at hatr haerr
    simp only [] at hatr haerr
    simp only [List.getD_eq_getElem?_getD] at ha
    subst haerr
    cases aerr with
    | some aerr2 =>
      simp [buildGrid, gridTrace, hv, hjp, hjd, hme, hcap, hcad, hmodel, hslice,
        hds, hdt, hdtr, if_neg hdsr, hp2p, hg, hgt, hgtr, ha, hat, hatr,
        List.append_assoc]
    | none =>
    obtain ⟨ppg, hkp⟩ := keepLoop_covered r (t.get_axis_comm_lists "pipe") none
      (comm_lists_cover t hnd hax hjp hme)
    have hsl2 : (slicePhase t r ws (max (t.get_dim "model") 1)).2 =
        (if max (t.get_dim "model") 1 = 1 then (List.range ws).map (fun q => [q])
         else t.get_axis_comm_lists "model") := by
      rw [slicePhase]
      by_cases h : max (t.get_dim "model") 1 = 1
      · rw [if_pos h, if_pos h]
      · rw [if_neg h, if_neg h]
    simp [buildGrid, gridTrace, hv, hjp, hjd, hme, hcap, hcad, hmodel, hslice,
      hds, hdt, hdtr, if_neg hdsr, hp2p, hg, hgt, hgtr, ha, hat, hatr, hkp, hsl2,
      List.append_assoc]


/-- C4: for a fixed well-formed topology (distinct axis names, one size per
axis) and fixed world size, the ordered list of member-rank lists passed to
`dist.new_group` during grid construction is the same for every process:
two constructions that differ only in the constructing global rank issue the
same group-creation calls in the same order. -/
theorem c4_trace_rank_independent (t : ProcessTopology) (hnd : t.axes.Nodup)
    (hax : t.axes.length = t.dims.length) (ws r1 r2 : Nat)
    (h1 : r1 < ws) (h2 : r2 < ws) :
    (buildGrid t r1 ws).1.trace = (buildGrid t r2 ws).1.trace := by
  rw [buildGrid_trace_eq t hnd hax h1, buildGrid_trace_eq t hnd hax h2]

/-- Witness for C4 on `axes=[pipe,data,model], dims=[2,2,2]`, world size 8:
ranks 3 and 7 produce identical group-creation traces. -/
theorem c4_witness :
    (buildGrid (stdTopo 2 2 2) 3 8).1.trace =
      (buildGrid (stdTopo 2 2 2) 7 8).1.trace :=
  c4_trace_rank_independent (stdTopo 2 2 2) (by decide) (by decide) 8 3 7
    (by decide) (by decide)

end VeGiant
